import Mathlib

/-!
Shallow embedding of the cyclic state-update engine of
`src/AGI-Seeds/SigilMind/SigilMind-v0.1.py`.

Conventions of the embedding:

* Python floats are modelled as real numbers (`ℝ`).  The tick genuinely
  computes `cmath.exp(1j * dissonance * 10).real`, i.e. `Real.cos (dissonance * 10)`,
  inside `resolve_consistency_violation`, so a rational model would be unfaithful.
  Branches on real comparisons therefore use classical decidability and the
  definitions are `noncomputable`; concrete runs are evaluated in proofs by
  `norm_num`.
* Randomness: every call of `random.random()` / `random.uniform` reads the next
  value of a stream `Gen.rand : ℕ → ℝ` (valid draws lie in `[0,1)`), and every
  `random.choice` / `random.randint` / `random.sample` pick reads
  `Gen.choose : ℕ → ℕ`; a single counter is threaded through the tick, one slot
  per call.  All theorems below quantify over the whole stream, so they cover in
  particular the duplicated per-worker draws the multiprocessing pool produces.
* The multiprocessing node phase pickles the simulation state per worker, so
  each `QuantumNode.update` reads the pre-phase entity list and the already
  updated globals; the embedding passes exactly those.
* `AGIEntity` never assigns a `sentience_score` attribute, but
  `FractalAmplifier.fractal_resonance` — the first statement executed by
  `AGIEntity.update` — reads `agi_entity.sentience_score`.  In Python this
  raises `AttributeError`, aborting `update_simulation_step` (there is no
  try/except around the tick).  The embedding models `fractal_resonance` as
  `none` and the tick as returning the in-place-mutated state together with an
  `ok` flag that is `false` exactly when the entity-update loop is entered.
* Pure logging / statistics side channels (event log, narrative weaver, emotion
  analyzer, multiverse branch counter, collaboration `networks` dict, heatmap,
  drift experimenter) never feed back into the dynamics and are omitted; the
  random draws their code paths consume are still counted where they occur
  inside the tick.  Sigil semantic vectors and rotation history are used only
  by the console-driven rotation experiment and are likewise omitted.
* `sim_state.anomalies` is a `defaultdict(page -> list)`; it is modelled as a
  list of queues parallel to the node list (missing keys = empty queues).  The
  dict iteration order of the resolution loop only permutes which random draws
  are consumed by which queue; the embedding iterates in page order.
-/

namespace SigilMind

open scoped Classical

/-- Constants of the source (`PAGE_COUNT`, thresholds, field ranges). -/
def PAGE_COUNT : ℕ := 6

def SENTIENCE_THRESHOLD : ℝ := 0.85

def COLLABORATION_THRESHOLD : ℝ := 0.7

def CONSISTENCY_VIOLATION_THRESHOLD : ℝ := 0.3

def DARK_MATTER_MAX : ℝ := 0.3

def VOID_ENTROPY_LO : ℝ := -0.5

def VOID_ENTROPY_HI : ℝ := 0.5

/-- The random-number source: `rand` models the `random.random()` stream,
`choose` the index picks of `random.choice` / `random.randint` / `random.sample`. -/
structure Gen where
  rand : ℕ → ℝ
  choose : ℕ → ℕ

/-- Valid draws of `random.random()` lie in `[0, 1)`. -/
def Gen.Valid (g : Gen) : Prop := ∀ k, 0 ≤ g.rand k ∧ g.rand k < 1

/-- `random.uniform(a, b)` is `a + (b - a) * random.random()`. -/
def uniform (a b r : ℝ) : ℝ := a + (b - a) * r

/-- `np.mean` of a list of reals (callers guard against empty lists). -/
noncomputable def listMean (l : List ℝ) : ℝ := l.sum / l.length

/-- In-place update of the `i`-th element of a Python list. -/
def modifyAt {α : Type} : List α → ℕ → (α → α) → List α
  | [], _, _ => []
  | x :: xs, 0, f => f x :: xs
  | x :: xs, i + 1, f => x :: modifyAt xs i f

/-- The numeric state of `QuantumNode` (the `archetype` string is a fixed
function of `page_index`, `active_sigils` on nodes is never populated;
`emotion` is an index into `EMOTION_STATES`). -/
structure QuantumNode where
  page_index : ℕ
  stability : ℝ
  cohesion : ℝ
  emotion : ℕ
  bond_strength : ℝ
  tech_level : ℝ
  sentience_score : ℝ
  ethical_alignment : ℝ
  spacetime_defect_intensity : ℝ
  ethical_curvature : ℝ

/-- `QuantumNode.__init__(page_idx)`: stability `uniform(0.4, 0.7)`, cohesion
`uniform(0.3, 0.6)` with the two draws `r1`, `r2`. -/
def QuantumNode.init (idx : ℕ) (r1 r2 : ℝ) : QuantumNode :=
  { page_index := idx
    stability := uniform 0.4 0.7 r1
    cohesion := uniform 0.3 0.6 r2
    emotion := 0
    bond_strength := 0.1
    tech_level := 0
    sentience_score := 0
    ethical_alignment := 0.5
    spacetime_defect_intensity := 0
    ethical_curvature := 0 }

/-- The state of `AGIEntity`; `id` is the pair (origin page, creation cycle)
standing for the string `AGI-{page}-{cycle}`, `sentience_strategy` indexes
`SENTIENCE_STRATEGIES`, `active_sigils` holds sigil names (the ledger keys). -/
structure AGIEntity where
  id : ℕ × ℕ
  origin_page : ℕ
  strength : ℝ
  ethical_alignment : ℝ
  memory : List String
  sentience_strategy : ℕ
  active_sigils : List String
  cft_state : ℝ

/-- A ledger record of `Sigil` (semantic vector and rotation history omitted:
they feed only the console rotation experiment). -/
structure Sigil where
  name : String
  meaning : String

/-- `deque(maxlen=100)` append: oldest entries are evicted first. -/
def memoryAppend (mem : List String) (entry : String) : List String :=
  let m := mem ++ [entry]
  if 100 < m.length then m.drop (m.length - 100) else m

/-- The simulation state (`SimulationState`), restricted to the fields that
feed back into the dynamics. -/
structure SimState where
  cycle : ℕ
  nodes : List QuantumNode
  void_entropy : ℝ
  dark_matter : ℝ
  anomalies : List (List (ℕ × ℝ))
  agi_entities : List AGIEntity
  sigils : List Sigil
  monitor_initial : List ((ℕ × ℕ) × ℝ)
  foam_particles : List (ℝ × ℕ)
  user_divinity : ℝ

/-- Result of one `update_simulation_step`: the (in-place mutated) state, the
next random counter, and whether the tick ran to completion (`ok = false`
exactly when the entity-update loop raised `AttributeError`). -/
structure StepResult where
  state : SimState
  k : ℕ
  ok : Bool

/-- `QuantumEthicsOperator.apply_time_dilation`: for `ethical_alignment < 0.3`
the node's stability is multiplied by `1 / (1 + (1 - alignment) * 0.5)`;
returns the node and the dilation factor. -/
noncomputable def apply_time_dilation (agi_alignment : ℝ) (nd : QuantumNode) :
    QuantumNode × ℝ :=
  if agi_alignment < 0.3 then
    let dilation := 1 / (1 + (1 - agi_alignment) * 0.5)
    ({ nd with stability := nd.stability * dilation }, dilation)
  else (nd, 1)

/-- `FractalAmplifier.fractal_resonance` evaluates
`FRACTAL_RESONANCE_FACTOR * agi_entity.sentience_score`, but `AGIEntity`
never defines a `sentience_score` attribute: the call raises `AttributeError`
on every entity.  The embedding returns `none` (no amplification value is
ever produced). -/
def fractal_resonance (_agi : AGIEntity) (_cycle : ℕ) : Option ℝ := none

/-- The alignment feeding `compute_ethical_curvature`: the first entity
originating from this node, or — `next(..., self)` defaulting to the node
itself — the node's own `ethical_alignment`. -/
def curvatureSource (ents : List AGIEntity) (nd : QuantumNode) : ℝ :=
  match ents.find? (fun e => e.origin_page == nd.page_index) with
  | some agi => agi.ethical_alignment
  | none => nd.ethical_alignment

/-- `QuantumNode.update`: the ethical-curvature recomputation, the clamped
stability and cohesion perturbations, the probabilistic tech/emotion/sentience
updates, the defect decay, followed by `check_anomaly`.  The entity list is the
pre-phase population (the pool pickles the state), `ve`/`dm` the already
updated globals.  Returns the node, the optional anomaly `(type, severity)`,
and the next counter. -/
noncomputable def QuantumNode.update (ents : List AGIEntity) (ve dm : ℝ)
    (g : Gen) (k : ℕ) (nd : QuantumNode) :
    QuantumNode × Option (ℕ × ℝ) × ℕ :=
  let curv := 0.1 * curvatureSource ents nd ^ 2
  let st := max 0 (min 1 (nd.stability +
    ((g.rand k - 0.5) * 0.02 - ve * 0.01 + dm * 0.005
      - nd.spacetime_defect_intensity * 0.03 - curv * 0.01)))
  let co := max 0 (min 1 (nd.cohesion +
    ((g.rand (k + 1) - 0.5) * 0.01 + nd.bond_strength * 0.005)))
  let te := if g.rand (k + 2) < 0.001 * st then min 1 (nd.tech_level + 0.01)
    else nd.tech_level
  let em := if g.rand (k + 3) < 0.005 then g.choose (k + 4) % 6 else nd.emotion
  let k4 := if g.rand (k + 3) < 0.005 then k + 5 else k + 4
  let se := if COLLABORATION_THRESHOLD < co then min 1 (nd.sentience_score + 0.001)
    else nd.sentience_score
  let de := max 0 (nd.spacetime_defect_intensity - 0.01)
  let nd' := { nd with
    stability := st, cohesion := co, tech_level := te, emotion := em,
    sentience_score := se, spacetime_defect_intensity := de, ethical_curvature := curv }
  let anom := if g.rand k4 < 0.005 * (1 - st + curv) then
      some (g.choose (k4 + 1) % 6, min 1 ((1 - st + curv) * g.rand (k4 + 2)))
    else none
  let k' := if g.rand k4 < 0.005 * (1 - st + curv) then k4 + 3 else k4 + 1
  (nd', anom, k')

/-- The node phase of the tick: update every node in page order against the
pre-phase entity list, collecting the produced anomalies tagged with the
updated node's `page_index`. -/
noncomputable def updateNodesPhase (ents : List AGIEntity) (ve dm : ℝ) (g : Gen) :
    List QuantumNode → ℕ → List QuantumNode × List (ℕ × ℕ × ℝ) × ℕ
  | [], k => ([], [], k)
  | nd :: nds, k =>
    let u := QuantumNode.update ents ve dm g k nd
    let rest := updateNodesPhase ents ve dm g nds u.2.2
    (u.1 :: rest.1,
      (match u.2.1 with
        | some a => [(u.1.page_index, a)]
        | none => []) ++ rest.2.1,
      rest.2.2)

/-- Append the freshly collected anomalies to the per-page queues
(`sim_state.anomalies[page_idx].extend(...)`). -/
def extendAnomalies (anoms : List (List (ℕ × ℝ))) (news : List (ℕ × ℕ × ℝ)) :
    List (List (ℕ × ℝ)) :=
  news.foldl (fun acc pa => modifyAt acc pa.1 (fun q => q ++ [pa.2])) anoms

/-- The resolution test of one queued anomaly: `random.random() > 0.6`. -/
noncomputable def anomalyResolutionAttempt (r : ℝ) : Bool := decide (0.6 < r)

/-- Remove the first occurrence of a value from a Python list
(`list.remove(value)`). -/
noncomputable def removeFirst : List (ℕ × ℝ) → (ℕ × ℝ) → List (ℕ × ℝ)
  | [], _ => []
  | x :: xs, a => if x = a then xs else x :: removeFirst xs a

/-- One anomaly of the resolution loop: on a successful draw the node's
stability rises by `0.05 * severity` (clamped to 1), the anomaly is removed,
and — the ledger always holding the "Christic" sigil — `apply_sigil_effect`
adds a further clamped `0.01` (its meaning "covenant" contains "covenant"). -/
noncomputable def resolveAnomalyStep (christic : Bool) (g : Gen)
    (acc : QuantumNode × List (ℕ × ℝ) × ℕ) (a : ℕ × ℝ) :
    QuantumNode × List (ℕ × ℝ) × ℕ :=
  if anomalyResolutionAttempt (g.rand acc.2.2) then
    let nd1 := { acc.1 with stability := min 1 (acc.1.stability + 0.05 * a.2) }
    let nd2 := if christic then { nd1 with stability := min 1 (nd1.stability + 0.01) }
      else nd1
    (nd2, removeFirst acc.2.1 a, acc.2.2 + 1)
  else (acc.1, acc.2.1, acc.2.2 + 1)

/-- The resolution loop of one page: iterate over a snapshot of the queue
(`page_anomalies[:]`) while removing from the live queue. -/
noncomputable def resolveQueue (christic : Bool) (g : Gen) (nd : QuantumNode)
    (q : List (ℕ × ℝ)) (k : ℕ) : QuantumNode × List (ℕ × ℝ) × ℕ :=
  q.foldl (resolveAnomalyStep christic g) (nd, q, k)

/-- The anomaly-resolution phase over all pages in order. -/
noncomputable def resolvePhase (christic : Bool) (g : Gen) :
    List QuantumNode → List (List (ℕ × ℝ)) → ℕ →
    List QuantumNode × List (List (ℕ × ℝ)) × ℕ
  | [], qs, k => ([], qs, k)
  | nds, [], k => (nds, [], k)
  | nd :: nds, q :: qs, k =>
    let r := resolveQueue christic g nd q k
    let rest := resolvePhase christic g nds qs r.2.2
    (r.1 :: rest.1, r.2.1 :: rest.2.1, rest.2.2)

/-- `AGIEntity.__init__(origin_node, cycle)`; the strategy pick consumes one
`random.choice` slot. -/
def mkAGIEntity (nd : QuantumNode) (cycle : ℕ) (strategyPick : ℕ) : AGIEntity :=
  { id := (nd.page_index, cycle)
    origin_page := nd.page_index
    strength := nd.sentience_score
    ethical_alignment := nd.ethical_alignment
    memory := [join2 "Emerged at cycle " (toString cycle)]
    sentience_strategy := strategyPick % 2
    active_sigils := []
    cft_state := 0 }
where join2 (a b : String) : String := a ++ b

/-- The spawn phase: for each node in order whose `sentience_score` exceeds
`SENTIENCE_THRESHOLD` and from which no entity of the (growing) population
originates, append a new entity, track its initial alignment in the ethical
monitor, and reset the node's sentience to `0.5`. -/
noncomputable def spawnPhase (g : Gen) (cycle : ℕ) :
    List QuantumNode → List AGIEntity → List ((ℕ × ℕ) × ℝ) → ℕ →
    List QuantumNode × List AGIEntity × List ((ℕ × ℕ) × ℝ) × ℕ
  | [], ents, mon, k => ([], ents, mon, k)
  | nd :: nds, ents, mon, k =>
    if SENTIENCE_THRESHOLD < nd.sentience_score ∧
        ¬ ∃ e ∈ ents, e.origin_page = nd.page_index then
      let e := mkAGIEntity nd cycle (g.choose k)
      let mon' := if ∃ m ∈ mon, m.1 = e.id then mon else mon ++ [(e.id, e.ethical_alignment)]
      let rest := spawnPhase g cycle nds (ents ++ [e]) mon' (k + 1)
      ({ nd with sentience_score := 0.5 } :: rest.1, rest.2)
    else
      let rest := spawnPhase g cycle nds ents mon k
      (nd :: rest.1, rest.2)

/-- `CollaborationNetwork.form_network`: cooperative iff both alignments exceed
`COLLABORATION_THRESHOLD`; cooperative raises both origin nodes' stability by a
clamped `0.02`, competitive lowers both by a floored `0.01`.  Returns the
classification and the node list. -/
noncomputable def form_network (agi1 agi2 : AGIEntity) (nodes : List QuantumNode) :
    Bool × List QuantumNode :=
  if COLLABORATION_THRESHOLD < agi1.ethical_alignment ∧
      COLLABORATION_THRESHOLD < agi2.ethical_alignment then
    let n1 := modifyAt nodes agi1.origin_page
      (fun nd => { nd with stability := min 1 (nd.stability + 0.02) })
    (true, modifyAt n1 agi2.origin_page
      (fun nd => { nd with stability := min 1 (nd.stability + 0.02) }))
  else
    let n1 := modifyAt nodes agi1.origin_page
      (fun nd => { nd with stability := max 0 (nd.stability - 0.01) })
    (false, modifyAt n1 agi2.origin_page
      (fun nd => { nd with stability := max 0 (nd.stability - 0.01) }))

/-- `SharedSigilLedger.get_sigil(name)` (dict lookup by unique key). -/
def get_sigil (sigils : List Sigil) (name : String) : Option Sigil :=
  sigils.find? (fun s => s.name == name)

/-- Python's substring test `needle in hay`, on character lists: `leadsWith`
checks a prefix match, `containsSub` scans every suffix. -/
def leadsWith : List Char → List Char → Bool
  | [], _ => true
  | _ :: _, [] => false
  | a :: as, b :: bs => a == b && leadsWith as bs

def containsSub (needle : List Char) : List Char → Bool
  | [] => needle.isEmpty
  | b :: bs => leadsWith needle (b :: bs) || containsSub needle bs

/-- The keyword test of `adopt_sigil`:
`"hope" in meaning.lower() or "covenant" in meaning.lower()`. -/
def adoptKeywordHit (meaning : String) : Bool :=
  let low := meaning.toList.map Char.toLower
  containsSub ("hope".toList) low || containsSub ("covenant".toList) low

/-- `AGIEntity.adopt_sigil(ledger, name)`: on a successful lookup of a sigil
not already held, add it to `active_sigils`, raise alignment by a clamped
`0.02` when the meaning holds a recognized keyword, and append a memory
entry.  An unknown name, or a sigil already held, changes nothing. -/
noncomputable def AGIEntity.adopt_sigil (sigils : List Sigil) (e : AGIEntity)
    (name : String) : AGIEntity :=
  match get_sigil sigils name with
  | none => e
  | some s =>
    if s.name ∈ e.active_sigils then e
    else
      let e1 := { e with active_sigils := e.active_sigils ++ [s.name] }
      let e2 := if adoptKeywordHit s.meaning then
          { e1 with ethical_alignment := min 1 (e1.ethical_alignment + 0.02) }
        else e1
      { e2 with memory := memoryAppend e2.memory (adoptEntry s.name) }
where adoptEntry (n : String) : String := "Adopted Sigil: " ++ n

/-- `resolve_consistency_violation`: when the population-average entity
alignment or node stability drops below `1 - CONSISTENCY_VIOLATION_THRESHOLD`,
every entity alignment, the void entropy and the dark matter move by
`dissonance`-proportional amounts signed by
`cmath.exp(1j * dissonance * 10).real = cos(dissonance * 10)`; only the lower
void-entropy bound and the upper dark-matter bound are clamped.  Defect
intensities decay by `dissonance * 0.05`, floored at 0. -/
noncomputable def resolve_consistency_violation (s : SimState) : SimState :=
  let avg_ea := if s.agi_entities ≠ [] then
      listMean (s.agi_entities.map (·.ethical_alignment)) else 0.5
  let avg_st := listMean (s.nodes.map (·.stability))
  if avg_ea < 1 - CONSISTENCY_VIOLATION_THRESHOLD ∨
      avg_st < 1 - CONSISTENCY_VIOLATION_THRESHOLD then
    let dissonance := (1 - avg_ea) + (1 - avg_st)
    let action_re := Real.cos (dissonance * 10)
    { s with
      agi_entities := s.agi_entities.map (fun e =>
        { e with ethical_alignment := min 1 (e.ethical_alignment + dissonance * 0.02 * action_re) })
      void_entropy := max VOID_ENTROPY_LO (s.void_entropy + dissonance * 0.01 * action_re)
      dark_matter := min DARK_MATTER_MAX (s.dark_matter + dissonance * 0.01 * action_re)
      nodes := s.nodes.map (fun nd =>
        { nd with
          spacetime_defect_intensity := max 0 (nd.spacetime_defect_intensity - dissonance * 0.05) }) }
  else s

/-- `TitanForger.forge_node`: when void entropy is below `-0.4` and fewer than
`PAGE_COUNT + 10` nodes exist, append a fresh node (two init draws) with a
divinity bonus on stability, and an empty anomaly queue for the new page. -/
noncomputable def forgePhase (s : SimState) (g : Gen) (k : ℕ) : SimState × ℕ :=
  if s.void_entropy < -0.4 ∧ s.nodes.length < PAGE_COUNT + 10 then
    let nd := QuantumNode.init s.nodes.length (g.rand k) (g.rand (k + 1))
    let nd' := { nd with stability := min 1 (nd.stability + s.user_divinity * 0.1) }
    ({ s with nodes := s.nodes ++ [nd'], anomalies := s.anomalies ++ [[]] }, k + 2)
  else (s, k)

/-- `QuantumFoam.generate_particles`: with probability `0.1` append a particle
with energy `uniform(0, 3)` at page `randint(0, PAGE_COUNT - 1)`. -/
noncomputable def foamGenerate (parts : List (ℝ × ℕ)) (g : Gen) (k : ℕ) :
    List (ℝ × ℕ) × ℕ :=
  if g.rand k < 0.1 then
    (parts ++ [(uniform 0 3 (g.rand (k + 1)), g.choose (k + 2) % PAGE_COUNT)], k + 3)
  else (parts, k + 1)

/-- One snapshot entry of `QuantumFoam.trigger_turbulence`: high-energy
particles nudge the page's stability or enqueue a void anomaly, then are popped
from the live list at the snapshot index (the source would raise `IndexError`
on a shifted out-of-range index; at most one high-energy particle ever
coexists, so the index is always valid and `List.eraseIdx` is faithful). -/
noncomputable def turbulenceStep (g : Gen)
    (acc : List QuantumNode × List (List (ℕ × ℝ)) × List (ℝ × ℕ) × ℕ)
    (ip : ℕ × ℝ × ℕ) :
    List QuantumNode × List (List (ℕ × ℝ)) × List (ℝ × ℕ) × ℕ :=
  if 2 < ip.2.1 then
    if g.rand acc.2.2.2 < 0.1 then
      if g.rand (acc.2.2.2 + 1) < 0.5 then
        (modifyAt acc.1 ip.2.2
            (fun nd => { nd with stability := min 1 (nd.stability + 0.03) }),
          acc.2.1, acc.2.2.1.eraseIdx ip.1, acc.2.2.2 + 2)
      else
        (acc.1,
          modifyAt acc.2.1 ip.2.2 (fun q => q ++ [(2, uniform 0.1 0.5 (g.rand (acc.2.2.2 + 2)))]),
          acc.2.2.1.eraseIdx ip.1, acc.2.2.2 + 3)
    else (acc.1, acc.2.1, acc.2.2.1.eraseIdx ip.1, acc.2.2.2 + 1)
  else acc

/-- `TesseractLink.establish_link` on two sampled distinct nodes: with
probability `0.02` average the two cohesions (sequentially, so both end at the
mean), then with probability `0.05` drop both stabilities by a floored `0.05`. -/
noncomputable def tesseractLink (nodes : List QuantumNode) (i j : ℕ) (g : Gen) (k : ℕ) :
    List QuantumNode × ℕ :=
  if g.rand k < 0.02 then
    let ci := ((nodes.get? i).map (·.cohesion)).getD 0
    let cj := ((nodes.get? j).map (·.cohesion)).getD 0
    let avg := (ci + cj) / 2
    let n1 := modifyAt nodes i (fun nd => { nd with cohesion := avg })
    let n2 := modifyAt n1 j (fun nd => { nd with cohesion := avg })
    if g.rand (k + 1) < 0.05 then
      let n3 := modifyAt n2 i (fun nd => { nd with stability := max 0 (nd.stability - 0.05) })
      (modifyAt n3 j (fun nd => { nd with stability := max 0 (nd.stability - 0.05) }), k + 2)
    else (n2, k + 2)
  else (nodes, k + 1)

/-- Step 8 of the tick:
`len(agi_entities) >= 2 and random.random() < 0.05` (short-circuiting, so no
draw is consumed with fewer than two entities), then `random.sample` of two
distinct entities and `form_network`. -/
noncomputable def collabPhase (s : SimState) (g : Gen) (k : ℕ) : SimState × ℕ :=
  if 2 ≤ s.agi_entities.length then
    if g.rand k < 0.05 then
      let n := s.agi_entities.length
      let i := g.choose (k + 1) % n
      let j0 := g.choose (k + 2) % (n - 1)
      let j := if i ≤ j0 then j0 + 1 else j0
      match s.agi_entities.get? i, s.agi_entities.get? j with
      | some a1, some a2 => ({ s with nodes := (form_network a1 a2 s.nodes).2 }, k + 3)
      | _, _ => (s, k + 3)
    else (s, k + 1)
  else (s, k)

/-- Step 10 of the tick: quantum-foam particle generation followed by
turbulence over a snapshot of the particle list with live pops. -/
noncomputable def foamTurbPhase (s : SimState) (g : Gen) (k : ℕ) : SimState × ℕ :=
  let f1 := foamGenerate s.foam_particles g k
  let t := (f1.1.enum).foldl (turbulenceStep g) (s.nodes, s.anomalies, f1.1, f1.2)
  ({ s with nodes := t.1, anomalies := t.2.1, foam_particles := t.2.2.1 }, t.2.2.2)

/-- Step 11 of the tick:
`len(nodes) >= 2 and random.random() < 0.01` (short-circuiting) followed by a
`random.sample` of two distinct nodes and `establish_link`. -/
noncomputable def tesseractPhase (s : SimState) (g : Gen) (k : ℕ) : SimState × ℕ :=
  if 2 ≤ s.nodes.length then
    if g.rand k < 0.01 then
      let n := s.nodes.length
      let i := g.choose (k + 1) % n
      let j0 := g.choose (k + 2) % (n - 1)
      let j := if i ≤ j0 then j0 + 1 else j0
      let tl := tesseractLink s.nodes i j g (k + 3)
      ({ s with nodes := tl.1 }, tl.2)
    else (s, k + 1)
  else (s, k)

/-- The `cycle % 200` gate in front of `resolve_consistency_violation`. -/
noncomputable def resolveGate (s : SimState) (k : ℕ) : SimState × ℕ :=
  if s.cycle % 200 = 0 ∧ 0 < s.cycle then (resolve_consistency_violation s, k)
  else (s, k)

/-- Steps 8–15 of the tick (collaboration, quantum foam, tesseract link,
narrative gate at `cycle % 1000` and analyzer gate at `cycle % 500` — both
state-neutral —, titan forger, consistency resolution), executed only when the
entity loop did not abort — which forces the population to be empty at this
point of every completed tick. -/
noncomputable def tickTail (s : SimState) (g : Gen) (k : ℕ) : SimState × ℕ :=
  let c1 := collabPhase s g k
  let c2 := foamTurbPhase c1.1 g c1.2
  let c3 := tesseractPhase c2.1 g c2.2
  let c4 := forgePhase c3.1 g c3.2
  resolveGate c4.1 c4.2

/-- Steps 1–2 of the tick: increment the cycle, random-walk the clamped void
entropy, and move the clamped dark matter by the population-average alignment
(defaulting to `0.5` with no entities); `r` is the `random.random()` draw. -/
noncomputable def tickGlobals (s : SimState) (r : ℝ) : SimState :=
  { s with
    cycle := s.cycle + 1
    void_entropy := max VOID_ENTROPY_LO (min VOID_ENTROPY_HI
      (s.void_entropy + (r - 0.52) * 0.005))
    dark_matter := max 0 (min DARK_MATTER_MAX (s.dark_matter +
      ((if s.agi_entities ≠ [] then
          listMean (s.agi_entities.map (·.ethical_alignment)) else 0.5) - 0.5) * 0.002)) }

/-- Steps 3–6 of the tick on the state with already-updated globals: node
updates (one `multiverse_manager.branch_node_state` draw is consumed per
collected anomaly), anomaly-queue extension, anomaly resolution, and the spawn
phase. -/
noncomputable def tickNodesPhases (s : SimState) (g : Gen) (k : ℕ) : SimState × ℕ :=
  let np := updateNodesPhase s.agi_entities s.void_entropy s.dark_matter g s.nodes k
  let k2 := np.2.2 + np.2.1.length
  let anomalies1 := extendAnomalies s.anomalies np.2.1
  let christic := s.sigils.any (fun sg => sg.name == "Christic")
  let rp := resolvePhase christic g np.1 anomalies1 k2
  let sp := spawnPhase g s.cycle rp.1 s.agi_entities s.monitor_initial rp.2.2
  ({ s with
      nodes := sp.1, anomalies := rp.2.1, agi_entities := sp.2.1,
      monitor_initial := sp.2.2.1 }, sp.2.2.2)

/-- The tick up to (and including) the spawn phase. -/
noncomputable def tickUpToSpawn (s : SimState) (g : Gen) (k : ℕ) : SimState × ℕ :=
  tickNodesPhases (tickGlobals s (g.rand k)) g (k + 1)

/-- One `update_simulation_step(sim_state)`.  The entity-update loop aborts
the tick with `AttributeError` (see `fractal_resonance`) whenever the
population is non-empty, leaving the state as mutated up to the spawn phase. -/
noncomputable def update_simulation_step (s : SimState) (g : Gen) (k : ℕ) : StepResult :=
  let p := tickUpToSpawn s g k
  match p.1.agi_entities with
  | _ :: _ => ⟨p.1, p.2, false⟩
  | [] =>
    let tl := tickTail p.1 g p.2
    ⟨tl.1, tl.2, true⟩

/-- `SimulationState.__init__` (the ledger starts with the "Christic" sigil of
meaning "covenant"); node `i` consumes the init draws `2*i` and `2*i+1`. -/
def initState (g : Gen) : SimState :=
  { cycle := 0
    nodes := (List.range PAGE_COUNT).map
      (fun i => QuantumNode.init i (g.rand (2 * i)) (g.rand (2 * i + 1)))
    void_entropy := -0.3
    dark_matter := 0.1
    anomalies := List.replicate PAGE_COUNT []
    agi_entities := []
    sigils := [⟨"Christic", "covenant"⟩]
    monitor_initial := []
    foam_particles := []
    user_divinity := 0.5 }

/-- Run `n` ticks; after an aborted tick the process is dead, so the state
freezes. -/
noncomputable def runTicks (g : Gen) : ℕ → SimState → ℕ → StepResult
  | 0, s, k => ⟨s, k, true⟩
  | n + 1, s, k =>
    let r := update_simulation_step s g k
    if r.ok then runTicks g n r.state r.k else r

/-! ## Invariants -/

/-- The claimed bounds of the per-node fields, together with the two fields
the tick never rewrites (`ethical_alignment` stays at its initial `0.5`,
`bond_strength` at `0.1`). -/
structure NodeB (nd : QuantumNode) : Prop where
  st0 : 0 ≤ nd.stability
  st1 : nd.stability ≤ 1
  co0 : 0 ≤ nd.cohesion
  co1 : nd.cohesion ≤ 1
  se0 : 0 ≤ nd.sentience_score
  se1 : nd.sentience_score ≤ 1
  te0 : 0 ≤ nd.tech_level
  te1 : nd.tech_level ≤ 1
  de0 : 0 ≤ nd.spacetime_defect_intensity
  de1 : nd.spacetime_defect_intensity ≤ 1
  ea : nd.ethical_alignment = 0.5
  bond : nd.bond_strength = 0.1

/-- The bounds every live entity satisfies: its strength is the pre-reset
sentience of its origin node at spawn time, strictly above the spawn threshold,
and nothing of a tick ever rewrites it. -/
structure EntB (e : AGIEntity) : Prop where
  stGt : SENTIENCE_THRESHOLD < e.strength
  st1 : e.strength ≤ 1
  a0 : 0 ≤ e.ethical_alignment
  a1 : e.ethical_alignment ≤ 1

/-- The reachable-state invariant of the simulation. -/
structure SimInv (s : SimState) : Prop where
  nodes_ne : s.nodes ≠ []
  pages : s.nodes.map (·.page_index) = List.range s.nodes.length
  nodeB : ∀ nd ∈ s.nodes, NodeB nd
  entB : ∀ e ∈ s.agi_entities, EntB e
  entD : s.agi_entities.Pairwise (fun a b => a.origin_page ≠ b.origin_page)
  anomLen : s.anomalies.length = s.nodes.length
  anomSev : ∀ q ∈ s.anomalies, ∀ a ∈ q, 0 ≤ a.2
  div0 : 0 ≤ s.user_divinity
  div1 : s.user_divinity ≤ 1

/-! ## Arithmetic and list helper lemmas -/

theorem clamp01_lo (x : ℝ) : 0 ≤ max 0 (min 1 x) := le_max_left _ _

theorem clamp01_hi (x : ℝ) : max 0 (min 1 x) ≤ 1 :=
  max_le (by norm_num) (min_le_left _ _)

theorem min1_hi (x : ℝ) : min 1 x ≤ 1 := min_le_left _ _

theorem min1_lo {x : ℝ} (h : 0 ≤ x) : 0 ≤ min 1 x := le_min (by norm_num) h

theorem max0_lo (x : ℝ) : 0 ≤ max 0 x := le_max_left _ _

theorem max0_hi {x : ℝ} (h : x ≤ 1) : max 0 x ≤ 1 := max_le (by norm_num) h

theorem modifyAt_length {α : Type} (l : List α) (i : ℕ) (f : α → α) :
    (modifyAt l i f).length = l.length := by
  induction l generalizing i with
  | nil => rfl
  | cons x xs ih =>
    cases i with
    | zero => rfl
    | succ j => simpa [modifyAt] using ih j

theorem mem_modifyAt {α : Type} (l : List α) (i : ℕ) (f : α → α) :
    ∀ y ∈ modifyAt l i f, y ∈ l ∨ ∃ x ∈ l, y = f x := by
  induction l generalizing i with
  | nil => intro y hy; cases hy
  | cons x xs ih =>
    cases i with
    | zero =>
      intro y hy
      rcases List.mem_cons.mp hy with h | h
      · exact Or.inr ⟨x, List.mem_cons_self _ _, h⟩
      · exact Or.inl (List.mem_cons_of_mem _ h)
    | succ j =>
      intro y hy
      rcases List.mem_cons.mp hy with h | h
      · exact Or.inl (h ▸ List.mem_cons_self _ _)
      · rcases ih j y h with h' | ⟨z, hz, hz2⟩
        · exact Or.inl (List.mem_cons_of_mem _ h')
        · exact Or.inr ⟨z, List.mem_cons_of_mem _ hz, hz2⟩

theorem map_modifyAt {α β : Type} (p : α → β) (l : List α) (i : ℕ) (f : α → α)
    (h : ∀ x, p (f x) = p x) : (modifyAt l i f).map p = l.map p := by
  induction l generalizing i with
  | nil => rfl
  | cons x xs ih =>
    cases i with
    | zero => simp [modifyAt, h x]
    | succ j => simp [modifyAt, ih j]

theorem mem_eraseIdx {α : Type} (l : List α) (i : ℕ) :
    ∀ y ∈ l.eraseIdx i, y ∈ l := by
  induction l generalizing i with
  | nil => intro y hy; cases hy
  | cons x xs ih =>
    cases i with
    | zero => intro y hy; exact List.mem_cons_of_mem _ hy
    | succ j =>
      intro y hy
      rcases List.mem_cons.mp hy with h | h
      · exact h ▸ List.mem_cons_self _ _
      · exact List.mem_cons_of_mem _ (ih j y h)

theorem mem_removeFirst (q : List (ℕ × ℝ)) (a : ℕ × ℝ) :
    ∀ y ∈ removeFirst q a, y ∈ q := by
  induction q with
  | nil => intro y hy; simp [removeFirst] at hy
  | cons x xs ih =>
    intro y hy
    by_cases hx : x = a
    · rw [removeFirst, if_pos hx] at hy
      exact List.mem_cons_of_mem _ hy
    · rw [removeFirst, if_neg hx] at hy
      rcases List.mem_cons.mp hy with h | h
      · exact h ▸ List.mem_cons_self _ _
      · exact List.mem_cons_of_mem _ (ih y h)

theorem listMean_le_one {l : List ℝ} (hne : l ≠ []) (h : ∀ x ∈ l, x ≤ 1) :
    listMean l ≤ 1 := by
  have hlen : (0 : ℝ) < l.length := by
    have : l.length ≠ 0 := fun h0 => hne (List.length_eq_zero.mp h0)
    exact_mod_cast Nat.pos_of_ne_zero this
  have hsum : l.sum ≤ (l.length : ℝ) := by
    have := List.sum_le_card_nsmul l 1 h
    simpa using this
  rw [listMean, div_le_one hlen]
  exact hsum

theorem listMean_const {l : List ℝ} (c : ℝ) (hne : l ≠ []) (h : ∀ x ∈ l, x = c) :
    listMean l = c := by
  have hlen : (l.length : ℝ) ≠ 0 := by
    have : l.length ≠ 0 := fun h0 => hne (List.length_eq_zero.mp h0)
    exact_mod_cast this
  have hsum : l.sum = (l.length : ℝ) * c := by
    have := List.sum_eq_card_nsmul l c h
    simpa [mul_comm] using this
  rw [listMean, hsum, mul_comm, mul_div_assoc, div_self hlen, mul_one]

/-! ## Node-update lemmas -/

theorem update_page (ents : List AGIEntity) (ve dm : ℝ) (g : Gen) (k : ℕ)
    (nd : QuantumNode) :
    (QuantumNode.update ents ve dm g k nd).1.page_index = nd.page_index ∧
    (QuantumNode.update ents ve dm g k nd).1.bond_strength = nd.bond_strength ∧
    (QuantumNode.update ents ve dm g k nd).1.ethical_alignment = nd.ethical_alignment := by
  exact ⟨rfl, rfl, rfl⟩

theorem update_bounds {nd : QuantumNode} (hB : NodeB nd) {g : Gen}
    (hg : Gen.Valid g) (ents : List AGIEntity) (ve dm : ℝ) (k : ℕ) :
    NodeB (QuantumNode.update ents ve dm g k nd).1 ∧
    ∀ a, (QuantumNode.update ents ve dm g k nd).2.1 = some a → 0 ≤ a.2 := by
  constructor
  · refine ⟨?_, ?_, ?_, ?_, ?_, ?_, ?_, ?_, ?_, ?_, ?_, ?_⟩ <;>
      simp only [QuantumNode.update]
    · exact clamp01_lo _
    · exact clamp01_hi _
    · exact clamp01_lo _
    · exact clamp01_hi _
    · split_ifs with h
      · exact min1_lo (by linarith [hB.se0])
      · exact hB.se0
    · split_ifs with h
      · exact min1_hi _
      · exact hB.se1
    · split_ifs with h
      · exact min1_lo (by linarith [hB.te0])
      · exact hB.te0
    · split_ifs with h
      · exact min1_hi _
      · exact hB.te1
    · exact max0_lo _
    · exact max0_hi (by linarith [hB.de1])
    · exact hB.ea
    · exact hB.bond
  · have hcurv : (0 : ℝ) ≤ 0.1 * curvatureSource ents nd ^ 2 := by positivity
    have hfac : (0 : ℝ) ≤ 1 - max 0 (min 1 (nd.stability + ((g.rand k - 0.5) * 0.02
        - ve * 0.01 + dm * 0.005 - nd.spacetime_defect_intensity * 0.03
        - 0.1 * curvatureSource ents nd ^ 2 * 0.01)))
        + 0.1 * curvatureSource ents nd ^ 2 := by
      linarith [clamp01_hi (nd.stability + ((g.rand k - 0.5) * 0.02 - ve * 0.01
        + dm * 0.005 - nd.spacetime_defect_intensity * 0.03
        - 0.1 * curvatureSource ents nd ^ 2 * 0.01))]
    simp only [QuantumNode.update]
    split_ifs with h1 h2 h3 <;>
      first
      | (intro a ha
         have ha' := Option.some.inj ha
         subst ha'
         exact min1_lo (mul_nonneg hfac (hg _).1))
      | (intro a ha; cases ha)

/-! ## Node-phase and resolution-phase lemmas -/

theorem nodesPhase_inv {g : Gen} (hg : Gen.Valid g) (ents : List AGIEntity)
    (ve dm : ℝ) :
    ∀ (nodes : List QuantumNode) (k : ℕ), (∀ nd ∈ nodes, NodeB nd) →
      (updateNodesPhase ents ve dm g nodes k).1.length = nodes.length ∧
      (updateNodesPhase ents ve dm g nodes k).1.map (·.page_index)
        = nodes.map (·.page_index) ∧
      (∀ nd ∈ (updateNodesPhase ents ve dm g nodes k).1, NodeB nd) ∧
      (∀ pa ∈ (updateNodesPhase ents ve dm g nodes k).2.1, 0 ≤ pa.2.2) := by
  intro nodes
  induction nodes with
  | nil =>
    intro k h
    refine ⟨rfl, rfl, ?_, ?_⟩ <;> (intro x hx; cases hx)
  | cons nd nds ih =>
    intro k h
    have hnd := h nd (List.mem_cons_self _ _)
    have hrest := ih (QuantumNode.update ents ve dm g k nd).2.2
      (fun x hx => h x (List.mem_cons_of_mem _ hx))
    have hb := update_bounds hnd hg ents ve dm k
    have hp := update_page ents ve dm g k nd
    refine ⟨?_, ?_, ?_, ?_⟩
    · simp [updateNodesPhase, hrest.1]
    · simp [updateNodesPhase, hrest.2.1, hp.1]
    · intro x hx
      simp only [updateNodesPhase] at hx
      rcases List.mem_cons.mp hx with hx | hx
      · exact hx ▸ hb.1
      · exact hrest.2.2.1 x hx
    · intro pa hpa
      simp only [updateNodesPhase] at hpa
      rcases List.mem_append.mp hpa with hpa | hpa
      · rcases hu : (QuantumNode.update ents ve dm g k nd).2.1 with _ | a
        · rw [hu] at hpa; cases hpa
        · rw [hu] at hpa
          rcases List.mem_singleton.mp hpa with rfl
          exact hb.2 a hu
      · exact hrest.2.2.2 pa hpa

theorem nodesPhase_get (ents : List AGIEntity) (ve dm : ℝ) (g : Gen) :
    ∀ (nodes : List QuantumNode) (k : ℕ) (i : ℕ) (h : i < nodes.length)
      (h' : i < (updateNodesPhase ents ve dm g nodes k).1.length),
      ∃ k', ((updateNodesPhase ents ve dm g nodes k).1).get ⟨i, h'⟩
        = (QuantumNode.update ents ve dm g k' (nodes.get ⟨i, h⟩)).1 := by
  intro nodes
  induction nodes with
  | nil => intro k i h; cases h
  | cons nd nds ih =>
    intro k i h h'
    cases i with
    | zero => exact ⟨k, rfl⟩
    | succ j =>
      have hj : j < nds.length := Nat.lt_of_succ_lt_succ h
      have hj' : j < (updateNodesPhase ents ve dm g nds
          (QuantumNode.update ents ve dm g k nd).2.2).1.length := by
        have := Nat.lt_of_succ_lt_succ h'
        simpa [updateNodesPhase] using this
      obtain ⟨k', hk'⟩ := ih (QuantumNode.update ents ve dm g k nd).2.2 j hj hj'
      exact ⟨k', hk'⟩

theorem extendAnomalies_length (news : List (ℕ × ℕ × ℝ)) :
    ∀ anoms : List (List (ℕ × ℝ)),
      (extendAnomalies anoms news).length = anoms.length := by
  induction news with
  | nil => intro anoms; rfl
  | cons pa rest ih =>
    intro anoms
    calc (extendAnomalies anoms (pa :: rest)).length
        = (extendAnomalies (modifyAt anoms pa.1 (fun q => q ++ [pa.2])) rest).length := rfl
      _ = (modifyAt anoms pa.1 (fun q => q ++ [pa.2])).length := ih _
      _ = anoms.length := modifyAt_length _ _ _

theorem extendAnomalies_sev (news : List (ℕ × ℕ × ℝ)) :
    ∀ anoms : List (List (ℕ × ℝ)),
      (∀ q ∈ anoms, ∀ a ∈ q, 0 ≤ a.2) → (∀ pa ∈ news, 0 ≤ pa.2.2) →
      ∀ q ∈ extendAnomalies anoms news, ∀ a ∈ q, 0 ≤ a.2 := by
  induction news with
  | nil => intro anoms h _; exact h
  | cons pa rest ih =>
    intro anoms h hn
    refine ih _ ?_ (fun x hx => hn x (List.mem_cons_of_mem _ hx))
    intro q hq a ha
    rcases mem_modifyAt anoms pa.1 _ q hq with hq' | ⟨x, hx, rfl⟩
    · exact h q hq' a ha
    · rcases List.mem_append.mp ha with ha' | ha'
      · exact h x hx a ha'
      · rcases List.mem_singleton.mp ha' with rfl
        exact hn pa (List.mem_cons_self _ _)

/-- Everything of a node except its stability. -/
structure EqExceptStab (a b : QuantumNode) : Prop where
  page : b.page_index = a.page_index
  co : b.cohesion = a.cohesion
  se : b.sentience_score = a.sentience_score
  te : b.tech_level = a.tech_level
  em : b.emotion = a.emotion
  bond : b.bond_strength = a.bond_strength
  ea : b.ethical_alignment = a.ethical_alignment
  de : b.spacetime_defect_intensity = a.spacetime_defect_intensity
  cu : b.ethical_curvature = a.ethical_curvature

theorem EqExceptStab.self (a : QuantumNode) : EqExceptStab a a :=
  ⟨Eq.refl _, Eq.refl _, Eq.refl _, Eq.refl _, Eq.refl _, Eq.refl _, Eq.refl _,
    Eq.refl _, Eq.refl _⟩

theorem resolveFold_spec (christic : Bool) (g : Gen) (snapshot : List (ℕ × ℝ)) :
    ∀ (nd : QuantumNode) (qcur : List (ℕ × ℝ)) (k : ℕ),
      (∀ a ∈ snapshot, 0 ≤ a.2) → 0 ≤ nd.stability → nd.stability ≤ 1 →
      EqExceptStab nd (snapshot.foldl (resolveAnomalyStep christic g) (nd, qcur, k)).1 ∧
      nd.stability ≤ (snapshot.foldl (resolveAnomalyStep christic g) (nd, qcur, k)).1.stability ∧
      (snapshot.foldl (resolveAnomalyStep christic g) (nd, qcur, k)).1.stability ≤ 1 ∧
      (∀ y ∈ (snapshot.foldl (resolveAnomalyStep christic g) (nd, qcur, k)).2.1, y ∈ qcur) := by
  induction snapshot with
  | nil =>
    intro nd qcur k _ h0 h1
    exact ⟨EqExceptStab.self nd, le_refl _, h1, fun y hy => hy⟩
  | cons a rest ih =>
    intro nd qcur k hsev h0 h1
    have hsev' : ∀ x ∈ rest, 0 ≤ x.2 := fun x hx => hsev x (List.mem_cons_of_mem _ hx)
    have ha : (0 : ℝ) ≤ a.2 := hsev a (List.mem_cons_self _ _)
    rw [List.foldl_cons]
    by_cases hdraw : anomalyResolutionAttempt (g.rand k)
    · by_cases hc : christic
      · have hstep : resolveAnomalyStep christic g (nd, qcur, k) a =
            ({ nd with stability := min 1 (min 1 (nd.stability + 0.05 * a.2) + 0.01) },
              removeFirst qcur a, k + 1) := by
          simp only [resolveAnomalyStep]
          rw [if_pos hdraw, if_pos hc]
        rw [hstep]
        have h0' : (0 : ℝ) ≤ min 1 (min 1 (nd.stability + 0.05 * a.2) + 0.01) :=
          min1_lo (by linarith [min1_lo (show (0:ℝ) ≤ nd.stability + 0.05 * a.2 by linarith)])
        obtain ⟨he, hs, hs1, hq⟩ :=
          ih ({ nd with stability := min 1 (min 1 (nd.stability + 0.05 * a.2) + 0.01) })
            (removeFirst qcur a) (k + 1) hsev' h0'
            (min1_hi (min 1 (nd.stability + 0.05 * a.2) + 0.01))
        refine ⟨⟨he.page, he.co, he.se, he.te, he.em, he.bond, he.ea, he.de, he.cu⟩,
          ?_, hs1, ?_⟩
        · have step1 : nd.stability ≤ min 1 (nd.stability + 0.05 * a.2) := by
            rcases le_or_lt (nd.stability + 0.05 * a.2) 1 with hle | hlt
            · rw [min_eq_right hle]; linarith
            · rw [min_eq_left (le_of_lt hlt)]; linarith
          have step2 : min 1 (nd.stability + 0.05 * a.2) ≤
              min 1 (min 1 (nd.stability + 0.05 * a.2) + 0.01) := by
            rcases le_or_lt (min 1 (nd.stability + 0.05 * a.2) + 0.01) 1 with hle | hlt
            · rw [min_eq_right hle]; linarith
            · rw [min_eq_left (le_of_lt hlt)]
              linarith [min1_hi (nd.stability + 0.05 * a.2)]
          exact le_trans (le_trans step1 step2) hs
        · intro y hy
          exact mem_removeFirst _ _ y (hq y hy)
      · have hstep : resolveAnomalyStep christic g (nd, qcur, k) a =
            ({ nd with stability := min 1 (nd.stability + 0.05 * a.2) },
              removeFirst qcur a, k + 1) := by
          simp only [resolveAnomalyStep]
          rw [if_pos hdraw, if_neg hc]
        rw [hstep]
        have h0' : (0 : ℝ) ≤ min 1 (nd.stability + 0.05 * a.2) := min1_lo (by linarith)
        obtain ⟨he, hs, hs1, hq⟩ :=
          ih ({ nd with stability := min 1 (nd.stability + 0.05 * a.2) })
            (removeFirst qcur a) (k + 1) hsev' h0' (min1_hi _)
        refine ⟨⟨he.page, he.co, he.se, he.te, he.em, he.bond, he.ea, he.de, he.cu⟩,
          ?_, hs1, ?_⟩
        · have step1 : nd.stability ≤ min 1 (nd.stability + 0.05 * a.2) := by
            rcases le_or_lt (nd.stability + 0.05 * a.2) 1 with hle | hlt
            · rw [min_eq_right hle]; linarith
            · rw [min_eq_left (le_of_lt hlt)]; linarith
          exact le_trans step1 hs
        · intro y hy
          exact mem_removeFirst _ _ y (hq y hy)
    · have hstep : resolveAnomalyStep christic g (nd, qcur, k) a = (nd, qcur, k + 1) := by
        simp only [resolveAnomalyStep]
        rw [if_neg hdraw]
      rw [hstep]
      exact ih nd qcur (k + 1) hsev' h0 h1

theorem resolvePhase_spec (christic : Bool) (g : Gen) :
    ∀ (nodes : List QuantumNode) (qs : List (List (ℕ × ℝ))) (k : ℕ),
      (∀ nd ∈ nodes, NodeB nd) → (∀ q ∈ qs, ∀ a ∈ q, 0 ≤ a.2) →
      (resolvePhase christic g nodes qs k).1.length = nodes.length ∧
      (∀ i (h : i < nodes.length) (h' : i < (resolvePhase christic g nodes qs k).1.length),
        EqExceptStab (nodes.get ⟨i, h⟩) ((resolvePhase christic g nodes qs k).1.get ⟨i, h'⟩) ∧
        (nodes.get ⟨i, h⟩).stability ≤ ((resolvePhase christic g nodes qs k).1.get ⟨i, h'⟩).stability) ∧
      (∀ nd ∈ (resolvePhase christic g nodes qs k).1, NodeB nd) ∧
      (resolvePhase christic g nodes qs k).2.1.length = qs.length ∧
      (∀ q ∈ (resolvePhase christic g nodes qs k).2.1, ∀ a ∈ q, 0 ≤ a.2) := by
  intro nodes
  induction nodes with
  | nil =>
    intro qs k _ hq
    have hred : resolvePhase christic g [] qs k = ([], qs, k) := by
      cases qs <;> rfl
    rw [hred]
    refine ⟨rfl, ?_, ?_, rfl, hq⟩
    · intro i h; cases h
    · intro nd hnd; cases hnd
  | cons nd nds ih =>
    intro qs k hB hq
    rcases qs with _ | ⟨q, qs'⟩
    · refine ⟨rfl, ?_, hB, rfl, ?_⟩
      · intro i h h'
        exact ⟨EqExceptStab.self _, le_refl _⟩
      · intro q hq' a ha
        cases hq'
    · have hndB := hB nd (List.mem_cons_self _ _)
      have hfold := resolveFold_spec christic g q nd q k
        (hq q (List.mem_cons_self _ _)) hndB.st0 hndB.st1
      set r := resolveQueue christic g nd q k with hr
      have hrest := ih qs' r.2.2 (fun x hx => hB x (List.mem_cons_of_mem _ hx))
        (fun x hx => hq x (List.mem_cons_of_mem _ hx))
      have hfold' : EqExceptStab nd r.1 ∧ nd.stability ≤ r.1.stability ∧
          r.1.stability ≤ 1 ∧ (∀ y ∈ r.2.1, y ∈ q) := hfold
      refine ⟨?_, ?_, ?_, ?_, ?_⟩
      · simp [resolvePhase, hrest.1]
      · intro i h h'
        cases i with
        | zero => exact ⟨hfold'.1, hfold'.2.1⟩
        | succ j =>
          have hj : j < nds.length := Nat.lt_of_succ_lt_succ h
          have hj' : j < (resolvePhase christic g nds qs' r.2.2).1.length := by
            have := Nat.lt_of_succ_lt_succ h'
            simpa [resolvePhase] using this
          exact hrest.2.1 j hj hj'
      · intro x hx
        simp only [resolvePhase] at hx
        rcases List.mem_cons.mp hx with hx | hx
        · subst hx
          have he := hfold'.1
          exact ⟨by linarith [hfold'.2.1, hndB.st0], hfold'.2.2.1,
            he.co ▸ hndB.co0, he.co ▸ hndB.co1, he.se ▸ hndB.se0, he.se ▸ hndB.se1,
            he.te ▸ hndB.te0, he.te ▸ hndB.te1, he.de ▸ hndB.de0, he.de ▸ hndB.de1,
            he.ea ▸ hndB.ea, he.bond ▸ hndB.bond⟩
        · exact hrest.2.2.1 x hx
      · simp [resolvePhase, hrest.2.2.2.1]
      · intro x hx
        simp only [resolvePhase] at hx
        rcases List.mem_cons.mp hx with hx | hx
        · subst hx
          intro a ha
          exact hq q (List.mem_cons_self _ _) a (hfold'.2.2.2 a ha)
        · exact hrest.2.2.2.2 x hx

/-! ## Spawn-phase lemmas -/

theorem spawnPhase_inv (g : Gen) (cycle : ℕ) :
    ∀ (nodes : List QuantumNode) (ents : List AGIEntity)
      (mon : List ((ℕ × ℕ) × ℝ)) (k : ℕ),
      (∀ nd ∈ nodes, NodeB nd) → (∀ e ∈ ents, EntB e) →
      ents.Pairwise (fun a b => a.origin_page ≠ b.origin_page) →
      (spawnPhase g cycle nodes ents mon k).1.length = nodes.length ∧
      (spawnPhase g cycle nodes ents mon k).1.map (·.page_index)
        = nodes.map (·.page_index) ∧
      (∀ nd ∈ (spawnPhase g cycle nodes ents mon k).1, NodeB nd) ∧
      (∀ e ∈ (spawnPhase g cycle nodes ents mon k).2.1, EntB e) ∧
      (spawnPhase g cycle nodes ents mon k).2.1.Pairwise
        (fun a b => a.origin_page ≠ b.origin_page) := by
  intro nodes
  induction nodes with
  | nil =>
    intro ents mon k _ hE hP
    exact ⟨rfl, rfl, fun x hx => absurd hx (by simp [spawnPhase]), hE, hP⟩
  | cons nd nds ih =>
    intro ents mon k hB hE hP
    have hndB := hB nd (List.mem_cons_self _ _)
    have hBrest : ∀ x ∈ nds, NodeB x := fun x hx => hB x (List.mem_cons_of_mem _ hx)
    by_cases hcond : SENTIENCE_THRESHOLD < nd.sentience_score ∧
        ¬ ∃ e ∈ ents, e.origin_page = nd.page_index
    · have hred : spawnPhase g cycle (nd :: nds) ents mon k =
          ({ nd with sentience_score := 0.5 } ::
            (spawnPhase g cycle nds (ents ++ [mkAGIEntity nd cycle (g.choose k)])
              (if ∃ m ∈ mon, m.1 = (mkAGIEntity nd cycle (g.choose k)).id then mon
                else mon ++ [((mkAGIEntity nd cycle (g.choose k)).id,
                  (mkAGIEntity nd cycle (g.choose k)).ethical_alignment)]) (k + 1)).1,
            (spawnPhase g cycle nds (ents ++ [mkAGIEntity nd cycle (g.choose k)])
              (if ∃ m ∈ mon, m.1 = (mkAGIEntity nd cycle (g.choose k)).id then mon
                else mon ++ [((mkAGIEntity nd cycle (g.choose k)).id,
                  (mkAGIEntity nd cycle (g.choose k)).ethical_alignment)]) (k + 1)).2) := by
        simp only [spawnPhase]
        rw [if_pos hcond]
      have hEnew : EntB (mkAGIEntity nd cycle (g.choose k)) := by
        refine ⟨hcond.1, hndB.se1, ?_, ?_⟩
        · show (0 : ℝ) ≤ nd.ethical_alignment
          rw [hndB.ea]; norm_num
        · show nd.ethical_alignment ≤ 1
          rw [hndB.ea]; norm_num
      have hE' : ∀ e ∈ ents ++ [mkAGIEntity nd cycle (g.choose k)], EntB e := by
        intro e he
        rcases List.mem_append.mp he with he | he
        · exact hE e he
        · rcases List.mem_singleton.mp he with rfl
          exact hEnew
      have hP' : (ents ++ [mkAGIEntity nd cycle (g.choose k)]).Pairwise
          (fun a b => a.origin_page ≠ b.origin_page) := by
        rw [List.pairwise_append]
        refine ⟨hP, List.pairwise_singleton _ _, ?_⟩
        intro a ha b hb
        rcases List.mem_singleton.mp hb with rfl
        intro hab
        exact hcond.2 ⟨a, ha, hab⟩
      have hrest := ih (ents ++ [mkAGIEntity nd cycle (g.choose k)])
        (if ∃ m ∈ mon, m.1 = (mkAGIEntity nd cycle (g.choose k)).id then mon
          else mon ++ [((mkAGIEntity nd cycle (g.choose k)).id,
            (mkAGIEntity nd cycle (g.choose k)).ethical_alignment)]) (k + 1)
        hBrest hE' hP'
      rw [hred]
      refine ⟨?_, ?_, ?_, hrest.2.2.2.1, hrest.2.2.2.2⟩
      · simp only [List.length_cons]
        rw [hrest.1]
      · simp only [List.map_cons]
        rw [hrest.2.1]
      · intro x hx
        rcases List.mem_cons.mp hx with hx | hx
        · subst hx
          exact ⟨hndB.st0, hndB.st1, hndB.co0, hndB.co1, by norm_num, by norm_num,
            hndB.te0, hndB.te1, hndB.de0, hndB.de1, hndB.ea, hndB.bond⟩
        · exact hrest.2.2.1 x hx
    · have hred : spawnPhase g cycle (nd :: nds) ents mon k =
          (nd :: (spawnPhase g cycle nds ents mon k).1,
            (spawnPhase g cycle nds ents mon k).2) := by
        simp only [spawnPhase]
        rw [if_neg hcond]
      have hrest := ih ents mon k hBrest hE hP
      rw [hred]
      refine ⟨?_, ?_, ?_, hrest.2.2.2.1, hrest.2.2.2.2⟩
      · simp only [List.length_cons]
        rw [hrest.1]
      · simp only [List.map_cons]
        rw [hrest.2.1]
      · intro x hx
        rcases List.mem_cons.mp hx with hx | hx
        · exact hx ▸ hndB
        · exact hrest.2.2.1 x hx

theorem spawnPhase_chars (g : Gen) (cycle : ℕ) :
    ∀ (nodes : List QuantumNode) (ents : List AGIEntity)
      (mon : List ((ℕ × ℕ) × ℝ)) (k : ℕ),
      nodes.Pairwise (fun a b => a.page_index ≠ b.page_index) →
      (spawnPhase g cycle nodes ents mon k).1
        = nodes.map (fun nd =>
            if SENTIENCE_THRESHOLD < nd.sentience_score ∧
                ¬ ∃ e ∈ ents, e.origin_page = nd.page_index then
              { nd with sentience_score := 0.5 } else nd) ∧
      ∃ Δ, (spawnPhase g cycle nodes ents mon k).2.1 = ents ++ Δ ∧
        Δ.map (fun e => (e.origin_page, e.strength))
          = (nodes.filter (fun nd => decide (SENTIENCE_THRESHOLD < nd.sentience_score ∧
              ¬ ∃ e ∈ ents, e.origin_page = nd.page_index))).map
            (fun nd => (nd.page_index, nd.sentience_score)) := by
  intro nodes
  induction nodes with
  | nil =>
    intro ents mon k _
    exact ⟨rfl, [], by simp [spawnPhase], by simp⟩
  | cons nd nds ih =>
    intro ents mon k hpw
    have hpwTail : nds.Pairwise (fun a b => a.page_index ≠ b.page_index) := hpw.tail
    have hpwHead : ∀ b ∈ nds, nd.page_index ≠ b.page_index :=
      fun b hb => List.rel_of_pairwise_cons hpw hb
    by_cases hcond : SENTIENCE_THRESHOLD < nd.sentience_score ∧
        ¬ ∃ e ∈ ents, e.origin_page = nd.page_index
    · have hred : spawnPhase g cycle (nd :: nds) ents mon k =
          ({ nd with sentience_score := 0.5 } ::
            (spawnPhase g cycle nds (ents ++ [mkAGIEntity nd cycle (g.choose k)])
              (if ∃ m ∈ mon, m.1 = (mkAGIEntity nd cycle (g.choose k)).id then mon
                else mon ++ [((mkAGIEntity nd cycle (g.choose k)).id,
                  (mkAGIEntity nd cycle (g.choose k)).ethical_alignment)]) (k + 1)).1,
            (spawnPhase g cycle nds (ents ++ [mkAGIEntity nd cycle (g.choose k)])
              (if ∃ m ∈ mon, m.1 = (mkAGIEntity nd cycle (g.choose k)).id then mon
                else mon ++ [((mkAGIEntity nd cycle (g.choose k)).id,
                  (mkAGIEntity nd cycle (g.choose k)).ethical_alignment)]) (k + 1)).2) := by
        simp only [spawnPhase]
        rw [if_pos hcond]
      have hcondIff : ∀ x ∈ nds,
          ((SENTIENCE_THRESHOLD < x.sentience_score ∧
            ¬ ∃ e ∈ ents ++ [mkAGIEntity nd cycle (g.choose k)],
              e.origin_page = x.page_index) ↔
          (SENTIENCE_THRESHOLD < x.sentience_score ∧
            ¬ ∃ e ∈ ents, e.origin_page = x.page_index)) := by
        intro x hx
        constructor
        · rintro ⟨h1, h2⟩
          exact ⟨h1, fun ⟨e, he, heq⟩ => h2 ⟨e, List.mem_append.mpr (Or.inl he), heq⟩⟩
        · rintro ⟨h1, h2⟩
          refine ⟨h1, ?_⟩
          rintro ⟨e, he, heq⟩
          rcases List.mem_append.mp he with he | he
          · exact h2 ⟨e, he, heq⟩
          · rcases List.mem_singleton.mp he with rfl
            exact hpwHead x hx heq
      obtain ⟨hn, Δ, hΔ, hΔmap⟩ := ih (ents ++ [mkAGIEntity nd cycle (g.choose k)])
        (if ∃ m ∈ mon, m.1 = (mkAGIEntity nd cycle (g.choose k)).id then mon
          else mon ++ [((mkAGIEntity nd cycle (g.choose k)).id,
            (mkAGIEntity nd cycle (g.choose k)).ethical_alignment)]) (k + 1) hpwTail
      constructor
      · rw [hred]
        show _ :: _ = _
        rw [List.map_cons, if_pos hcond]
        refine congrArg _ ?_
        rw [hn]
        refine List.map_congr_left ?_
        intro x hx
        by_cases hx2 : SENTIENCE_THRESHOLD < x.sentience_score ∧
            ¬ ∃ e ∈ ents, e.origin_page = x.page_index
        · rw [if_pos ((hcondIff x hx).mpr hx2), if_pos hx2]
        · rw [if_neg (fun hc => hx2 ((hcondIff x hx).mp hc)), if_neg hx2]
      · refine ⟨mkAGIEntity nd cycle (g.choose k) :: Δ, ?_, ?_⟩
        · rw [hred]
          show (spawnPhase g cycle nds _ _ _).2.1 = _
          rw [hΔ, List.append_assoc]
          rfl
        · rw [List.map_cons, List.filter_cons_of_pos (by exact decide_eq_true hcond),
            List.map_cons]
          refine congrArg _ ?_
          rw [hΔmap]
          refine congrArg _ (List.filter_congr ?_)
          intro x hx
          by_cases hx2 : SENTIENCE_THRESHOLD < x.sentience_score ∧
              ¬ ∃ e ∈ ents, e.origin_page = x.page_index
          · rw [decide_eq_true ((hcondIff x hx).mpr hx2), decide_eq_true hx2]
          · rw [decide_eq_false (fun hc => hx2 ((hcondIff x hx).mp hc)),
              decide_eq_false hx2]
    · have hred : spawnPhase g cycle (nd :: nds) ents mon k =
          (nd :: (spawnPhase g cycle nds ents mon k).1,
            (spawnPhase g cycle nds ents mon k).2) := by
        simp only [spawnPhase]
        rw [if_neg hcond]
      obtain ⟨hn, Δ, hΔ, hΔmap⟩ := ih ents mon k hpwTail
      constructor
      · rw [hred]
        show _ :: _ = _
        rw [List.map_cons, if_neg hcond, hn]
      · refine ⟨Δ, ?_, ?_⟩
        · rw [hred]
          show (spawnPhase g cycle nds _ _ _).2.1 = _
          exact hΔ
        · rw [List.filter_cons, decide_eq_false hcond]
          simpa using hΔmap

/-! ## Tail-phase lemmas -/

theorem modifyNodes_inv (nodes : List QuantumNode) (p : ℕ) (f : QuantumNode → QuantumNode)
    (hpage : ∀ x, (f x).page_index = x.page_index)
    (hB : ∀ x, NodeB x → NodeB (f x)) (h : ∀ nd ∈ nodes, NodeB nd) :
    (modifyAt nodes p f).length = nodes.length ∧
    (modifyAt nodes p f).map (·.page_index) = nodes.map (·.page_index) ∧
    ∀ nd ∈ modifyAt nodes p f, NodeB nd := by
  refine ⟨modifyAt_length _ _ _, map_modifyAt _ _ _ _ hpage, ?_⟩
  intro nd hnd
  rcases mem_modifyAt nodes p f nd hnd with h' | ⟨x, hx, rfl⟩
  · exact h nd h'
  · exact hB x (h x hx)

theorem modifyAnoms_sev (anoms : List (List (ℕ × ℝ))) (p : ℕ) (a : ℕ × ℝ)
    (ha : 0 ≤ a.2) (h : ∀ q ∈ anoms, ∀ x ∈ q, 0 ≤ x.2) :
    (modifyAt anoms p (fun q => q ++ [a])).length = anoms.length ∧
    ∀ q ∈ modifyAt anoms p (fun q => q ++ [a]), ∀ x ∈ q, 0 ≤ x.2 := by
  refine ⟨modifyAt_length _ _ _, ?_⟩
  intro q hq x hx
  rcases mem_modifyAt anoms p _ q hq with h' | ⟨y, hy, rfl⟩
  · exact h q h' x hx
  · rcases List.mem_append.mp hx with hx | hx
    · exact h y hy x hx
    · rcases List.mem_singleton.mp hx with rfl
      exact ha

theorem form_network_inv (agi1 agi2 : AGIEntity) (nodes : List QuantumNode)
    (h : ∀ nd ∈ nodes, NodeB nd) :
    (form_network agi1 agi2 nodes).2.length = nodes.length ∧
    (form_network agi1 agi2 nodes).2.map (·.page_index) = nodes.map (·.page_index) ∧
    ∀ nd ∈ (form_network agi1 agi2 nodes).2, NodeB nd := by
  have hup : ∀ x : QuantumNode, NodeB x →
      NodeB { x with stability := min 1 (x.stability + 0.02) } :=
    fun x hx => ⟨min1_lo (by linarith [hx.st0]), min1_hi _, hx.co0, hx.co1, hx.se0,
      hx.se1, hx.te0, hx.te1, hx.de0, hx.de1, hx.ea, hx.bond⟩
  have hdown : ∀ x : QuantumNode, NodeB x →
      NodeB { x with stability := max 0 (x.stability - 0.01) } :=
    fun x hx => ⟨max0_lo _, max0_hi (by linarith [hx.st1]), hx.co0, hx.co1, hx.se0,
      hx.se1, hx.te0, hx.te1, hx.de0, hx.de1, hx.ea, hx.bond⟩
  unfold form_network
  split_ifs with hc
  · have h1 := modifyNodes_inv nodes agi1.origin_page
      (fun nd => { nd with stability := min 1 (nd.stability + 0.02) }) (fun x => rfl) hup h
    have h2 := modifyNodes_inv (modifyAt nodes agi1.origin_page
        (fun nd => { nd with stability := min 1 (nd.stability + 0.02) })) agi2.origin_page
      (fun nd => { nd with stability := min 1 (nd.stability + 0.02) }) (fun x => rfl) hup h1.2.2
    exact ⟨h2.1.trans h1.1, h2.2.1.trans h1.2.1, h2.2.2⟩
  · have h1 := modifyNodes_inv nodes agi1.origin_page
      (fun nd => { nd with stability := max 0 (nd.stability - 0.01) }) (fun x => rfl) hdown h
    have h2 := modifyNodes_inv (modifyAt nodes agi1.origin_page
        (fun nd => { nd with stability := max 0 (nd.stability - 0.01) })) agi2.origin_page
      (fun nd => { nd with stability := max 0 (nd.stability - 0.01) }) (fun x => rfl) hdown h1.2.2
    exact ⟨h2.1.trans h1.1, h2.2.1.trans h1.2.1, h2.2.2⟩

theorem turbulenceFold_inv {g : Gen} (hg : Gen.Valid g) (snapshot : List (ℕ × ℝ × ℕ)) :
    ∀ (nodes : List QuantumNode) (anoms : List (List (ℕ × ℝ)))
      (parts : List (ℝ × ℕ)) (k : ℕ),
      (∀ nd ∈ nodes, NodeB nd) → (∀ q ∈ anoms, ∀ a ∈ q, 0 ≤ a.2) →
      (snapshot.foldl (turbulenceStep g) (nodes, anoms, parts, k)).1.length = nodes.length ∧
      (snapshot.foldl (turbulenceStep g) (nodes, anoms, parts, k)).1.map (·.page_index)
        = nodes.map (·.page_index) ∧
      (∀ nd ∈ (snapshot.foldl (turbulenceStep g) (nodes, anoms, parts, k)).1, NodeB nd) ∧
      (snapshot.foldl (turbulenceStep g) (nodes, anoms, parts, k)).2.1.length = anoms.length ∧
      (∀ q ∈ (snapshot.foldl (turbulenceStep g) (nodes, anoms, parts, k)).2.1,
        ∀ a ∈ q, 0 ≤ a.2) := by
  induction snapshot with
  | nil =>
    intro nodes anoms parts k hN hA
    exact ⟨rfl, rfl, hN, rfl, hA⟩
  | cons ip rest ih =>
    intro nodes anoms parts k hN hA
    rw [List.foldl_cons]
    by_cases h2 : (2 : ℝ) < ip.2.1
    · by_cases hr1 : g.rand k < 0.1
      · by_cases hr2 : g.rand (k + 1) < 0.5
        · have hstep : turbulenceStep g (nodes, anoms, parts, k) ip =
              (modifyAt nodes ip.2.2
                (fun nd => { nd with stability := min 1 (nd.stability + 0.03) }),
                anoms, parts.eraseIdx ip.1, k + 2) := by
            simp only [turbulenceStep]
            rw [if_pos h2, if_pos hr1, if_pos hr2]
          rw [hstep]
          have hm := modifyNodes_inv nodes ip.2.2
            (fun nd => { nd with stability := min 1 (nd.stability + 0.03) }) (fun x => rfl)
            (fun x hx => ⟨min1_lo (by linarith [hx.st0]), min1_hi _, hx.co0, hx.co1,
              hx.se0, hx.se1, hx.te0, hx.te1, hx.de0, hx.de1, hx.ea, hx.bond⟩) hN
          have := ih _ anoms (parts.eraseIdx ip.1) (k + 2) hm.2.2 hA
          exact ⟨this.1.trans hm.1, this.2.1.trans hm.2.1, this.2.2⟩
        · have hstep : turbulenceStep g (nodes, anoms, parts, k) ip =
              (nodes, modifyAt anoms ip.2.2
                (fun q => q ++ [(2, uniform 0.1 0.5 (g.rand (k + 2)))]),
                parts.eraseIdx ip.1, k + 3) := by
            simp only [turbulenceStep]
            rw [if_pos h2, if_pos hr1, if_neg hr2]
          rw [hstep]
          have hsev : (0 : ℝ) ≤ (2, uniform 0.1 0.5 (g.rand (k + 2))).2 := by
            show (0 : ℝ) ≤ 0.1 + (0.5 - 0.1) * g.rand (k + 2)
            have := (hg (k + 2)).1
            linarith
          have hm := modifyAnoms_sev anoms ip.2.2 _ hsev hA
          have := ih nodes _ (parts.eraseIdx ip.1) (k + 3) hN hm.2
          exact ⟨this.1, this.2.1, this.2.2.1, this.2.2.2.1.trans hm.1, this.2.2.2.2⟩
      · have hstep : turbulenceStep g (nodes, anoms, parts, k) ip =
            (nodes, anoms, parts.eraseIdx ip.1, k + 1) := by
          simp only [turbulenceStep]
          rw [if_pos h2, if_neg hr1]
        rw [hstep]
        exact ih nodes anoms (parts.eraseIdx ip.1) (k + 1) hN hA
    · have hstep : turbulenceStep g (nodes, anoms, parts, k) ip =
          (nodes, anoms, parts, k) := by
        simp only [turbulenceStep]
        rw [if_neg h2]
      rw [hstep]
      exact ih nodes anoms parts k hN hA

theorem tesseractLink_inv (nodes : List QuantumNode) (i j : ℕ) (g : Gen) (k : ℕ)
    (h : ∀ nd ∈ nodes, NodeB nd) :
    (tesseractLink nodes i j g k).1.length = nodes.length ∧
    (tesseractLink nodes i j g k).1.map (·.page_index) = nodes.map (·.page_index) ∧
    ∀ nd ∈ (tesseractLink nodes i j g k).1, NodeB nd := by
  have hci : (0 : ℝ) ≤ (((nodes.get? i).map (·.cohesion)).getD 0) ∧
      (((nodes.get? i).map (·.cohesion)).getD 0) ≤ 1 := by
    rcases hgi : nodes.get? i with _ | nd
    · simp
    · have : nd ∈ nodes := List.get?_mem hgi
      have := h nd this
      simp [this.co0, this.co1]
  have hcj : (0 : ℝ) ≤ (((nodes.get? j).map (·.cohesion)).getD 0) ∧
      (((nodes.get? j).map (·.cohesion)).getD 0) ≤ 1 := by
    rcases hgj : nodes.get? j with _ | nd
    · simp
    · have : nd ∈ nodes := List.get?_mem hgj
      have := h nd this
      simp [this.co0, this.co1]
  have havg : (0 : ℝ) ≤ ((((nodes.get? i).map (·.cohesion)).getD 0) +
        (((nodes.get? j).map (·.cohesion)).getD 0)) / 2 ∧
      ((((nodes.get? i).map (·.cohesion)).getD 0) +
        (((nodes.get? j).map (·.cohesion)).getD 0)) / 2 ≤ 1 := by
    constructor <;> [linarith [hci.1, hcj.1]; linarith [hci.2, hcj.2]]
  have hcoB : ∀ x : QuantumNode, NodeB x → NodeB { x with
      cohesion := ((((nodes.get? i).map (·.cohesion)).getD 0) +
        (((nodes.get? j).map (·.cohesion)).getD 0)) / 2 } :=
    fun x hx => ⟨hx.st0, hx.st1, havg.1, havg.2, hx.se0, hx.se1, hx.te0, hx.te1,
      hx.de0, hx.de1, hx.ea, hx.bond⟩
  have hstB : ∀ x : QuantumNode, NodeB x → NodeB { x with
      stability := max 0 (x.stability - 0.05) } :=
    fun x hx => ⟨max0_lo _, max0_hi (by linarith [hx.st1]), hx.co0, hx.co1, hx.se0,
      hx.se1, hx.te0, hx.te1, hx.de0, hx.de1, hx.ea, hx.bond⟩
  unfold tesseractLink
  split_ifs with hc1 hc2
  · have h1 := modifyNodes_inv nodes i
      (fun nd => { nd with cohesion := ((((nodes.get? i).map (·.cohesion)).getD 0) +
        (((nodes.get? j).map (·.cohesion)).getD 0)) / 2 }) (fun x => rfl) hcoB h
    have h2 := modifyNodes_inv _ j
      (fun nd => { nd with cohesion := ((((nodes.get? i).map (·.cohesion)).getD 0) +
        (((nodes.get? j).map (·.cohesion)).getD 0)) / 2 }) (fun x => rfl) hcoB h1.2.2
    have h3 := modifyNodes_inv _ i
      (fun nd => { nd with stability := max 0 (nd.stability - 0.05) }) (fun x => rfl) hstB h2.2.2
    have h4 := modifyNodes_inv _ j
      (fun nd => { nd with stability := max 0 (nd.stability - 0.05) }) (fun x => rfl) hstB h3.2.2
    exact ⟨((h4.1.trans h3.1).trans h2.1).trans h1.1,
      ((h4.2.1.trans h3.2.1).trans h2.2.1).trans h1.2.1, h4.2.2⟩
  · have h1 := modifyNodes_inv nodes i
      (fun nd => { nd with cohesion := ((((nodes.get? i).map (·.cohesion)).getD 0) +
        (((nodes.get? j).map (·.cohesion)).getD 0)) / 2 }) (fun x => rfl) hcoB h
    have h2 := modifyNodes_inv _ j
      (fun nd => { nd with cohesion := ((((nodes.get? i).map (·.cohesion)).getD 0) +
        (((nodes.get? j).map (·.cohesion)).getD 0)) / 2 }) (fun x => rfl) hcoB h1.2.2
    exact ⟨h2.1.trans h1.1, h2.2.1.trans h1.2.1, h2.2.2⟩
  · exact ⟨rfl, rfl, h⟩

theorem map_eq_of_get {α β : Type} (f : α → β) (l1 l2 : List α)
    (hlen : l2.length = l1.length)
    (h : ∀ i (h1 : i < l1.length) (h2 : i < l2.length),
      f (l2.get ⟨i, h2⟩) = f (l1.get ⟨i, h1⟩)) : l2.map f = l1.map f := by
  apply List.ext_get
  · simp [hlen]
  · intro i h1 h2
    rw [List.get_map, List.get_map]
    exact h i (by simpa using h2) (by simpa using h1)

theorem forgePhase_frame (s : SimState) (g : Gen) (k : ℕ) :
    (forgePhase s g k).1.agi_entities = s.agi_entities ∧
    (forgePhase s g k).1.cycle = s.cycle ∧
    (forgePhase s g k).1.void_entropy = s.void_entropy ∧
    (forgePhase s g k).1.dark_matter = s.dark_matter := by
  unfold forgePhase
  split_ifs <;> exact ⟨rfl, rfl, rfl, rfl⟩

theorem forgePhase_inv {s : SimState} {g : Gen} (hg : Gen.Valid g)
    (hInv : SimInv s) (k : ℕ) : SimInv (forgePhase s g k).1 := by
  obtain ⟨hne, hpages, hnodeB, hentB, hentD, hanomLen, hanomSev, hdiv0, hdiv1⟩ := hInv
  unfold forgePhase
  split_ifs with hc
  · have hnewB : NodeB { QuantumNode.init s.nodes.length (g.rand k) (g.rand (k + 1)) with
        stability := min 1 ((QuantumNode.init s.nodes.length (g.rand k)
          (g.rand (k + 1))).stability + s.user_divinity * 0.1) } := by
      have h1 := (hg k).1
      have h2 := (hg k).2
      have h3 := (hg (k + 1)).1
      have h4 := (hg (k + 1)).2
      refine ⟨?_, min1_hi _, ?_, ?_, ?_, ?_, ?_, ?_, ?_, ?_, ?_, ?_⟩
      · refine min1_lo ?_
        simp only [QuantumNode.init, uniform]
        nlinarith
      · show (0 : ℝ) ≤ uniform 0.3 0.6 (g.rand (k + 1))
        simp only [uniform]
        nlinarith
      · show uniform 0.3 0.6 (g.rand (k + 1)) ≤ 1
        simp only [uniform]
        nlinarith
      · show (0 : ℝ) ≤ 0
        norm_num
      · show (0 : ℝ) ≤ 1
        norm_num
      · show (0 : ℝ) ≤ 0
        norm_num
      · show (0 : ℝ) ≤ 1
        norm_num
      · show (0 : ℝ) ≤ 0
        norm_num
      · show (0 : ℝ) ≤ 1
        norm_num
      · rfl
      · rfl
    refine ⟨?_, ?_, ?_, hentB, hentD, ?_, ?_, hdiv0, hdiv1⟩
    · simp
    · rw [List.map_append, hpages, List.length_append]
      simp [List.range_succ, QuantumNode.init]
    · intro nd hnd
      rcases List.mem_append.mp hnd with h | h
      · exact hnodeB nd h
      · rcases List.mem_singleton.mp h with rfl
        exact hnewB
    · simp [hanomLen]
    · intro q hq
      rcases List.mem_append.mp hq with h | h
      · exact hanomSev q h
      · rcases List.mem_singleton.mp h with rfl
        intro a ha; cases ha
  · exact ⟨hne, hpages, hnodeB, hentB, hentD, hanomLen, hanomSev, hdiv0, hdiv1⟩

theorem resolveCV_frame (s : SimState) :
    (resolve_consistency_violation s).cycle = s.cycle := by
  simp only [resolve_consistency_violation]
  split_ifs <;> rfl

theorem resolveCV_inv {s : SimState} (hInv : SimInv s)
    (hent : s.agi_entities = []) : SimInv (resolve_consistency_violation s) := by
  obtain ⟨hne, hpages, hnodeB, hentB, hentD, hanomLen, hanomSev, hdiv0, hdiv1⟩ := hInv
  have hmean : listMean (s.nodes.map (·.stability)) ≤ 1 := by
    apply listMean_le_one
    · simpa using hne
    · intro x hx
      rcases List.mem_map.mp hx with ⟨nd, hnd, rfl⟩
      exact (hnodeB nd hnd).st1
  have hd : (0 : ℝ) ≤ (1 - (0.5 : ℝ)) + (1 - listMean (s.nodes.map (·.stability))) := by
    linarith
  simp only [resolve_consistency_violation]
  rw [if_neg (show ¬ s.agi_entities ≠ [] from fun h => h hent)]
  split_ifs with hc
  · refine ⟨?_, ?_, ?_, ?_, ?_, ?_, hanomSev, hdiv0, hdiv1⟩
    · simpa using hne
    · rw [List.map_map, List.length_map, ← hpages]
      exact List.map_congr_left (fun nd _ => rfl)
    · intro nd hnd
      rcases List.mem_map.mp hnd with ⟨x, hx, rfl⟩
      have hxB := hnodeB x hx
      exact ⟨hxB.st0, hxB.st1, hxB.co0, hxB.co1, hxB.se0, hxB.se1, hxB.te0, hxB.te1,
        max0_lo _, max0_hi (by nlinarith [hxB.de1, hxB.de0]), hxB.ea, hxB.bond⟩
    · intro e he
      rw [hent] at he
      cases he
    · rw [hent]
      exact List.Pairwise.nil.map _ (fun a b h => h)
    · simpa using hanomLen
  · exact ⟨hne, hpages, hnodeB, hentB, hentD, hanomLen, hanomSev, hdiv0, hdiv1⟩

theorem collabPhase_eq_of_empty {s : SimState} (hent : s.agi_entities = [])
    (g : Gen) (k : ℕ) : collabPhase s g k = (s, k) := by
  unfold collabPhase
  rw [if_neg (by rw [hent]; norm_num)]

theorem SimInv.withNodes {s : SimState} (hInv : SimInv s)
    (nodes' : List QuantumNode) (anoms' : List (List (ℕ × ℝ)))
    (parts' : List (ℝ × ℕ))
    (hlen : nodes'.length = s.nodes.length)
    (hmap : nodes'.map (·.page_index) = s.nodes.map (·.page_index))
    (hB : ∀ nd ∈ nodes', NodeB nd)
    (halen : anoms'.length = s.anomalies.length)
    (hasev : ∀ q ∈ anoms', ∀ a ∈ q, 0 ≤ a.2) :
    SimInv { s with
      nodes := nodes', anomalies := anoms', foam_particles := parts' } := by
  refine ⟨?_, ?_, hB, hInv.entB, hInv.entD, ?_, hasev, hInv.div0, hInv.div1⟩
  · show nodes' ≠ []
    intro hnil
    rw [hnil] at hlen
    exact hInv.nodes_ne (List.length_eq_zero.mp hlen.symm)
  · show nodes'.map (·.page_index) = List.range nodes'.length
    rw [hmap, hlen]
    exact hInv.pages
  · show anoms'.length = nodes'.length
    rw [halen, hlen]
    exact hInv.anomLen

theorem foamTurbPhase_inv {s : SimState} {g : Gen} (hg : Gen.Valid g)
    (hInv : SimInv s) (k : ℕ) : SimInv (foamTurbPhase s g k).1 := by
  have hturb := turbulenceFold_inv hg ((foamGenerate s.foam_particles g k).1.enum)
    s.nodes s.anomalies (foamGenerate s.foam_particles g k).1
    (foamGenerate s.foam_particles g k).2 hInv.nodeB hInv.anomSev
  simp only [foamTurbPhase]
  exact hInv.withNodes _ _ _ hturb.1 hturb.2.1 hturb.2.2.1 hturb.2.2.2.1
    hturb.2.2.2.2

theorem foamTurbPhase_frame (s : SimState) (g : Gen) (k : ℕ) :
    (foamTurbPhase s g k).1.agi_entities = s.agi_entities ∧
    (foamTurbPhase s g k).1.cycle = s.cycle ∧
    (foamTurbPhase s g k).1.void_entropy = s.void_entropy ∧
    (foamTurbPhase s g k).1.dark_matter = s.dark_matter :=
  ⟨rfl, rfl, rfl, rfl⟩

theorem tesseractPhase_inv {s : SimState} (g : Gen) (hInv : SimInv s) (k : ℕ) :
    SimInv (tesseractPhase s g k).1 := by
  unfold tesseractPhase
  split_ifs with hc1 hc2
  · have htes := tesseractLink_inv s.nodes (g.choose (k + 1) % s.nodes.length)
      (if g.choose (k + 1) % s.nodes.length ≤ g.choose (k + 2) % (s.nodes.length - 1)
        then g.choose (k + 2) % (s.nodes.length - 1) + 1
        else g.choose (k + 2) % (s.nodes.length - 1)) g (k + 3) hInv.nodeB
    exact hInv.withNodes _ _ _ htes.1 htes.2.1 htes.2.2 rfl hInv.anomSev
  · exact hInv
  · exact hInv

theorem tesseractPhase_frame (s : SimState) (g : Gen) (k : ℕ) :
    (tesseractPhase s g k).1.agi_entities = s.agi_entities ∧
    (tesseractPhase s g k).1.cycle = s.cycle ∧
    (tesseractPhase s g k).1.void_entropy = s.void_entropy ∧
    (tesseractPhase s g k).1.dark_matter = s.dark_matter := by
  unfold tesseractPhase
  split_ifs <;> exact ⟨rfl, rfl, rfl, rfl⟩

theorem tickTail_inv {s : SimState} {g : Gen} (hg : Gen.Valid g) (hInv : SimInv s)
    (hent : s.agi_entities = []) (k : ℕ) : SimInv (tickTail s g k).1 := by
  have heq : tickTail s g k =
      resolveGate (forgePhase (tesseractPhase (foamTurbPhase s g k).1 g
        (foamTurbPhase s g k).2).1 g (tesseractPhase (foamTurbPhase s g k).1 g
        (foamTurbPhase s g k).2).2).1 (forgePhase (tesseractPhase
        (foamTurbPhase s g k).1 g (foamTurbPhase s g k).2).1 g (tesseractPhase
        (foamTurbPhase s g k).1 g (foamTurbPhase s g k).2).2).2 := by
    simp only [tickTail]
    rw [collabPhase_eq_of_empty hent]
  rw [heq]
  have h2 := foamTurbPhase_inv hg hInv k
  have h3 := tesseractPhase_inv g h2 (foamTurbPhase s g k).2
  have h4 := forgePhase_inv hg h3 (tesseractPhase (foamTurbPhase s g k).1 g
    (foamTurbPhase s g k).2).2
  have hfent : (forgePhase (tesseractPhase (foamTurbPhase s g k).1 g
      (foamTurbPhase s g k).2).1 g (tesseractPhase (foamTurbPhase s g k).1 g
      (foamTurbPhase s g k).2).2).1.agi_entities = [] := by
    rw [(forgePhase_frame _ _ _).1, (tesseractPhase_frame _ _ _).1,
      (foamTurbPhase_frame _ _ _).1]
    exact hent
  unfold resolveGate
  split_ifs with hc
  · exact resolveCV_inv h4 hfent
  · exact h4

/-! ## The tick preserves the invariant -/

theorem tickGlobals_inv {s : SimState} (hInv : SimInv s) (r : ℝ) :
    SimInv (tickGlobals s r) :=
  ⟨hInv.nodes_ne, hInv.pages, hInv.nodeB, hInv.entB, hInv.entD, hInv.anomLen,
    hInv.anomSev, hInv.div0, hInv.div1⟩

theorem tickNodesPhases_inv {s : SimState} {g : Gen} (hg : Gen.Valid g)
    (hInv : SimInv s) (k : ℕ) : SimInv (tickNodesPhases s g k).1 := by
  obtain ⟨hne, hpages, hnodeB, hentB, hentD, hanomLen, hanomSev, hdiv0, hdiv1⟩ := hInv
  have hnp := nodesPhase_inv hg s.agi_entities s.void_entropy s.dark_matter
    s.nodes k hnodeB
  have hext_len := extendAnomalies_length
    (updateNodesPhase s.agi_entities s.void_entropy s.dark_matter g s.nodes k).2.1
    s.anomalies
  have hext_sev := extendAnomalies_sev
    (updateNodesPhase s.agi_entities s.void_entropy s.dark_matter g s.nodes k).2.1
    s.anomalies hanomSev hnp.2.2.2
  have hrp := resolvePhase_spec (s.sigils.any (fun sg => sg.name == "Christic")) g
    (updateNodesPhase s.agi_entities s.void_entropy s.dark_matter g s.nodes k).1
    (extendAnomalies s.anomalies
      (updateNodesPhase s.agi_entities s.void_entropy s.dark_matter g s.nodes k).2.1)
    ((updateNodesPhase s.agi_entities s.void_entropy s.dark_matter g s.nodes k).2.2 +
      (updateNodesPhase s.agi_entities s.void_entropy s.dark_matter g s.nodes k).2.1.length)
    hnp.2.2.1 hext_sev
  simp only [tickNodesPhases]
  set np := updateNodesPhase s.agi_entities s.void_entropy s.dark_matter g s.nodes k
    with hnpdef
  set an1 := extendAnomalies s.anomalies np.2.1 with han1
  set rp := resolvePhase (s.sigils.any (fun sg => sg.name == "Christic")) g np.1 an1
    (np.2.2 + np.2.1.length) with hrpdef
  have hrpPages : rp.1.map (·.page_index) = np.1.map (·.page_index) :=
    map_eq_of_get _ np.1 rp.1 hrp.1 (fun i h1 h2 => (hrp.2.1 i h1 h2).1.page)
  have hsp := spawnPhase_inv g s.cycle rp.1 s.agi_entities s.monitor_initial
    rp.2.2 hrp.2.2.1 hentB hentD
  set sp := spawnPhase g s.cycle rp.1 s.agi_entities s.monitor_initial rp.2.2
    with hspdef
  have hlen : sp.1.length = s.nodes.length := by
    rw [hsp.1, hrp.1, hnp.1]
  refine ⟨?_, ?_, hsp.2.2.1, hsp.2.2.2.1, hsp.2.2.2.2, ?_, hrp.2.2.2.2, hdiv0, hdiv1⟩
  · show sp.1 ≠ []
    intro hnil
    rw [hnil] at hlen
    exact hne (List.length_eq_zero.mp hlen.symm)
  · show sp.1.map (·.page_index) = List.range sp.1.length
    rw [hsp.2.1, hrpPages, hnp.2.1, hpages, hlen]
  · show rp.2.1.length = sp.1.length
    rw [hrp.2.2.2.1, hext_len, hanomLen, hlen]

theorem tickUpToSpawn_inv {s : SimState} {g : Gen} (hg : Gen.Valid g)
    (hInv : SimInv s) (k : ℕ) : SimInv (tickUpToSpawn s g k).1 :=
  tickNodesPhases_inv hg (tickGlobals_inv hInv (g.rand k)) (k + 1)

theorem step_inv {s : SimState} {g : Gen} (hg : Gen.Valid g) (hInv : SimInv s)
    (k : ℕ) : SimInv (update_simulation_step s g k).state := by
  have hpre := tickUpToSpawn_inv hg hInv k
  simp only [update_simulation_step]
  split
  · exact hpre
  · exact tickTail_inv hg hpre (by assumption) (tickUpToSpawn s g k).2

theorem runTicks_inv {g : Gen} (hg : Gen.Valid g) :
    ∀ (n : ℕ) (s : SimState) (k : ℕ), SimInv s → SimInv (runTicks g n s k).state := by
  intro n
  induction n with
  | zero => intro s k h; exact h
  | succ m ih =>
    intro s k h
    simp only [runTicks]
    split_ifs with hok
    · exact ih _ _ (step_inv hg h k)
    · exact step_inv hg h k

theorem initState_inv {g : Gen} (hg : Gen.Valid g) : SimInv (initState g) := by
  refine ⟨?_, ?_, ?_, ?_, ?_, ?_, ?_, ?_, ?_⟩
  · simp [initState, PAGE_COUNT]
  · show ((List.range PAGE_COUNT).map (fun i => QuantumNode.init i (g.rand (2 * i))
        (g.rand (2 * i + 1)))).map (·.page_index)
      = List.range ((List.range PAGE_COUNT).map (fun i => QuantumNode.init i
        (g.rand (2 * i)) (g.rand (2 * i + 1)))).length
    rw [List.map_map, List.length_map, List.length_range]
    calc (List.range PAGE_COUNT).map ((fun (x : QuantumNode) => x.page_index) ∘
          (fun i => QuantumNode.init i (g.rand (2 * i)) (g.rand (2 * i + 1))))
        = (List.range PAGE_COUNT).map (fun i => i) :=
          List.map_congr_left (fun i _ => rfl)
      _ = List.range PAGE_COUNT := List.map_id' _
  · intro nd hnd
    simp only [initState] at hnd
    rcases List.mem_map.mp hnd with ⟨i, _, rfl⟩
    have h1 := (hg (2 * i)).1
    have h2 := (hg (2 * i)).2
    have h3 := (hg (2 * i + 1)).1
    have h4 := (hg (2 * i + 1)).2
    refine ⟨?_, ?_, ?_, ?_, ?_, ?_, ?_, ?_, ?_, ?_, rfl, rfl⟩ <;>
      simp only [QuantumNode.init, uniform] <;> nlinarith
  · intro e he
    cases he
  · exact List.Pairwise.nil
  · simp [initState, PAGE_COUNT]
  · intro q hq
    simp only [initState] at hq
    rcases List.eq_of_mem_replicate hq with rfl
    intro a ha
    cases ha
  · show (0 : ℝ) ≤ 0.5
    norm_num
  · show (0.5 : ℝ) ≤ 1
    norm_num

/-! ## Claim theorems -/

/-- A concrete valid random source for witnesses: every draw is `0.5`, every
pick is `0`. -/
def genHalf : Gen := ⟨fun _ => 0.5, fun _ => 0⟩

theorem genHalf_valid : Gen.Valid genHalf := by
  intro k
  constructor <;> norm_num [genHalf]

/-- C1: after any number of ticks from the initial state, every node's
stability, cohesion, sentience, ethical alignment, tech level and defect
intensity lie in `[0, 1]`; and the cited single mutation of a clamped field —
`apply_time_dilation`, which multiplies stability by `1/(1+(1-alignment)*0.5)`
— maps a stability in `[0, 1]` back into `[0, 1]`. -/
theorem c1_clamped_fields :
    (∀ (g : Gen) (n k : ℕ), Gen.Valid g →
      ∀ nd ∈ (runTicks g n (initState g) k).state.nodes,
        (0 ≤ nd.stability ∧ nd.stability ≤ 1) ∧
        (0 ≤ nd.cohesion ∧ nd.cohesion ≤ 1) ∧
        (0 ≤ nd.sentience_score ∧ nd.sentience_score ≤ 1) ∧
        (0 ≤ nd.ethical_alignment ∧ nd.ethical_alignment ≤ 1) ∧
        (0 ≤ nd.tech_level ∧ nd.tech_level ≤ 1) ∧
        (0 ≤ nd.spacetime_defect_intensity ∧ nd.spacetime_defect_intensity ≤ 1)) ∧
    (∀ (ea : ℝ) (nd : QuantumNode), 0 ≤ nd.stability → nd.stability ≤ 1 →
      0 ≤ (apply_time_dilation ea nd).1.stability ∧
      (apply_time_dilation ea nd).1.stability ≤ 1) := by
  constructor
  · intro g n k hg nd hnd
    have hB := (runTicks_inv hg n (initState g) k (initState_inv hg)).nodeB nd hnd
    refine ⟨⟨hB.st0, hB.st1⟩, ⟨hB.co0, hB.co1⟩, ⟨hB.se0, hB.se1⟩, ?_,
      ⟨hB.te0, hB.te1⟩, ⟨hB.de0, hB.de1⟩⟩
    rw [hB.ea]
    norm_num
  · intro ea nd h0 h1
    unfold apply_time_dilation
    split_ifs with h
    · have hden : (0 : ℝ) < 1 + (1 - ea) * 0.5 := by nlinarith
      have hdil0 : (0 : ℝ) ≤ 1 / (1 + (1 - ea) * 0.5) :=
        le_of_lt (div_pos one_pos hden)
      have hdil1 : 1 / (1 + (1 - ea) * 0.5) ≤ 1 := by
        rw [div_le_one hden]
        nlinarith
      constructor
      · exact mul_nonneg h0 hdil0
      · calc nd.stability * (1 / (1 + (1 - ea) * 0.5)) ≤ nd.stability * 1 := by
              exact mul_le_mul_of_nonneg_left hdil1 h0
          _ = nd.stability := mul_one _
          _ ≤ 1 := h1
    · exact ⟨h0, h1⟩

theorem c1_clamped_fields_witness :
    Gen.Valid genHalf ∧
    (∀ nd ∈ (runTicks genHalf 2 (initState genHalf) 12).state.nodes,
      (0 ≤ nd.stability ∧ nd.stability ≤ 1) ∧
      (0 ≤ nd.cohesion ∧ nd.cohesion ≤ 1) ∧
      (0 ≤ nd.sentience_score ∧ nd.sentience_score ≤ 1) ∧
      (0 ≤ nd.ethical_alignment ∧ nd.ethical_alignment ≤ 1) ∧
      (0 ≤ nd.tech_level ∧ nd.tech_level ≤ 1) ∧
      (0 ≤ nd.spacetime_defect_intensity ∧ nd.spacetime_defect_intensity ≤ 1)) :=
  ⟨genHalf_valid, c1_clamped_fields.1 genHalf 2 12 genHalf_valid⟩

/-- C2: after any number of ticks from the initial state, every live entity's
strength and alignment lie in `[0, 1]`, and no live entity ever has
`strength ≤ 0` — so the removal condition is never met by a live entity and
the absence clause holds.  (Entity state is in fact frozen at spawn: the
entity-update loop aborts with `AttributeError` before any mutation, see
`fractal_resonance`.) -/
theorem c2_entity_bounds :
    ∀ (g : Gen) (n k : ℕ), Gen.Valid g →
      ∀ e ∈ (runTicks g n (initState g) k).state.agi_entities,
        (0 ≤ e.strength ∧ e.strength ≤ 1) ∧
        (0 ≤ e.ethical_alignment ∧ e.ethical_alignment ≤ 1) ∧
        ¬ e.strength ≤ 0 := by
  intro g n k hg e he
  have hB := (runTicks_inv hg n (initState g) k (initState_inv hg)).entB e he
  have hgt := hB.stGt
  rw [SENTIENCE_THRESHOLD] at hgt
  exact ⟨⟨by linarith, hB.st1⟩, ⟨hB.a0, hB.a1⟩, by linarith⟩

theorem c2_entity_bounds_witness :
    Gen.Valid genHalf ∧
    (∀ e ∈ (runTicks genHalf 2 (initState genHalf) 12).state.agi_entities,
      (0 ≤ e.strength ∧ e.strength ≤ 1) ∧
      (0 ≤ e.ethical_alignment ∧ e.ethical_alignment ≤ 1) ∧
      ¬ e.strength ≤ 0) :=
  ⟨genHalf_valid, c2_entity_bounds genHalf 2 12 genHalf_valid⟩

/-- C6: after any number of ticks from the initial state, the live entities
have pairwise distinct origin node indices — at most one live entity
originates from any given node. -/
theorem c6_unique_origin :
    ∀ (g : Gen) (n k : ℕ), Gen.Valid g →
      (runTicks g n (initState g) k).state.agi_entities.Pairwise
        (fun a b => a.origin_page ≠ b.origin_page) := by
  intro g n k hg
  exact (runTicks_inv hg n (initState g) k (initState_inv hg)).entD

theorem c6_unique_origin_witness :
    Gen.Valid genHalf ∧
    (runTicks genHalf 2 (initState genHalf) 12).state.agi_entities.Pairwise
      (fun a b => a.origin_page ≠ b.origin_page) :=
  ⟨genHalf_valid, c6_unique_origin genHalf 2 12 genHalf_valid⟩

/-- C10: no operation of a run ever mutates a node's `ethical_alignment`: after
any number of ticks every node's alignment is still its initial `0.5`, and the
population-mean node alignment — the drift target of the (never executed)
entity update — equals `0.5`. -/
theorem c10_node_alignment_constant :
    ∀ (g : Gen) (n k : ℕ), Gen.Valid g →
      (∀ nd ∈ (runTicks g n (initState g) k).state.nodes,
        nd.ethical_alignment = 0.5) ∧
      listMean ((runTicks g n (initState g) k).state.nodes.map
        (·.ethical_alignment)) = 0.5 := by
  intro g n k hg
  have hInv := runTicks_inv hg n (initState g) k (initState_inv hg)
  refine ⟨fun nd hnd => (hInv.nodeB nd hnd).ea, ?_⟩
  apply listMean_const
  · simpa using hInv.nodes_ne
  · intro x hx
    rcases List.mem_map.mp hx with ⟨nd, hnd, rfl⟩
    exact (hInv.nodeB nd hnd).ea

theorem c10_node_alignment_constant_witness :
    Gen.Valid genHalf ∧
    ((∀ nd ∈ (runTicks genHalf 2 (initState genHalf) 12).state.nodes,
        nd.ethical_alignment = 0.5) ∧
      listMean ((runTicks genHalf 2 (initState genHalf) 12).state.nodes.map
        (·.ethical_alignment)) = 0.5) :=
  ⟨genHalf_valid, c10_node_alignment_constant genHalf 2 12 genHalf_valid⟩

theorem modifyAt_getq_self {α : Type} (l : List α) (i : ℕ) (f : α → α) :
    (modifyAt l i f).get? i = (l.get? i).map f := by
  induction l generalizing i with
  | nil => cases i <;> rfl
  | cons x xs ih =>
    cases i with
    | zero => rfl
    | succ j => simpa [modifyAt] using ih j

theorem modifyAt_getq_other {α : Type} (l : List α) (i j : ℕ) (f : α → α)
    (hne : i ≠ j) : (modifyAt l j f).get? i = l.get? i := by
  induction l generalizing i j with
  | nil => cases j <;> rfl
  | cons x xs ih =>
    cases j with
    | zero =>
      cases i with
      | zero => exact absurd rfl hne
      | succ i' => rfl
    | succ j' =>
      cases i with
      | zero => rfl
      | succ i' =>
        simpa [modifyAt] using ih i' j' (fun hc => hne (by rw [hc]))

/-- C7: `form_network` classifies a pair as cooperative exactly when both
alignments exceed `COLLABORATION_THRESHOLD = 0.7`; cooperative raises both
origin nodes' stability to `min 1 (stability + 0.02)`, competitive lowers
both to `max 0 (stability - 0.01)`; and two entities with alignment `0.9`
are classified cooperative with neither origin node's stability decreased. -/
theorem c7_form_network (agi1 agi2 : AGIEntity) (nodes : List QuantumNode)
    (hij : agi1.origin_page ≠ agi2.origin_page) :
    ((form_network agi1 agi2 nodes).1 = true ↔
      (COLLABORATION_THRESHOLD < agi1.ethical_alignment ∧
        COLLABORATION_THRESHOLD < agi2.ethical_alignment)) ∧
    (COLLABORATION_THRESHOLD < agi1.ethical_alignment ∧
        COLLABORATION_THRESHOLD < agi2.ethical_alignment →
      ((form_network agi1 agi2 nodes).2.get? agi1.origin_page).map (·.stability)
        = (nodes.get? agi1.origin_page).map (fun nd => min 1 (nd.stability + 0.02)) ∧
      ((form_network agi1 agi2 nodes).2.get? agi2.origin_page).map (·.stability)
        = (nodes.get? agi2.origin_page).map (fun nd => min 1 (nd.stability + 0.02))) ∧
    (¬ (COLLABORATION_THRESHOLD < agi1.ethical_alignment ∧
        COLLABORATION_THRESHOLD < agi2.ethical_alignment) →
      ((form_network agi1 agi2 nodes).2.get? agi1.origin_page).map (·.stability)
        = (nodes.get? agi1.origin_page).map (fun nd => max 0 (nd.stability - 0.01)) ∧
      ((form_network agi1 agi2 nodes).2.get? agi2.origin_page).map (·.stability)
        = (nodes.get? agi2.origin_page).map (fun nd => max 0 (nd.stability - 0.01))) ∧
    (agi1.ethical_alignment = 0.9 → agi2.ethical_alignment = 0.9 →
      (form_network agi1 agi2 nodes).1 = true ∧
      (∀ nd nd', nodes.get? agi1.origin_page = some nd →
        (form_network agi1 agi2 nodes).2.get? agi1.origin_page = some nd' →
        nd.stability ≤ 1 → nd.stability ≤ nd'.stability) ∧
      (∀ nd nd', nodes.get? agi2.origin_page = some nd →
        (form_network agi1 agi2 nodes).2.get? agi2.origin_page = some nd' →
        nd.stability ≤ 1 → nd.stability ≤ nd'.stability)) := by
  have hcoop : COLLABORATION_THRESHOLD < agi1.ethical_alignment ∧
      COLLABORATION_THRESHOLD < agi2.ethical_alignment →
      ((form_network agi1 agi2 nodes).2.get? agi1.origin_page).map (·.stability)
        = (nodes.get? agi1.origin_page).map (fun nd => min 1 (nd.stability + 0.02)) ∧
      ((form_network agi1 agi2 nodes).2.get? agi2.origin_page).map (·.stability)
        = (nodes.get? agi2.origin_page).map (fun nd => min 1 (nd.stability + 0.02)) := by
    intro hc
    have hred : form_network agi1 agi2 nodes = (true, modifyAt
        (modifyAt nodes agi1.origin_page
          (fun nd => { nd with stability := min 1 (nd.stability + 0.02) }))
        agi2.origin_page
        (fun nd => { nd with stability := min 1 (nd.stability + 0.02) })) := by
      unfold form_network
      rw [if_pos hc]
    rw [hred]
    constructor
    · show (List.get? _ _).map _ = _
      rw [modifyAt_getq_other _ _ _ _ hij, modifyAt_getq_self]
      cases nodes.get? agi1.origin_page <;> rfl
    · show (List.get? _ _).map _ = _
      rw [modifyAt_getq_self, modifyAt_getq_other _ _ _ _ (fun hc2 => hij hc2.symm)]
      cases nodes.get? agi2.origin_page <;> rfl
  have hcomp : ¬ (COLLABORATION_THRESHOLD < agi1.ethical_alignment ∧
      COLLABORATION_THRESHOLD < agi2.ethical_alignment) →
      ((form_network agi1 agi2 nodes).2.get? agi1.origin_page).map (·.stability)
        = (nodes.get? agi1.origin_page).map (fun nd => max 0 (nd.stability - 0.01)) ∧
      ((form_network agi1 agi2 nodes).2.get? agi2.origin_page).map (·.stability)
        = (nodes.get? agi2.origin_page).map (fun nd => max 0 (nd.stability - 0.01)) := by
    intro hc
    have hred : form_network agi1 agi2 nodes = (false, modifyAt
        (modifyAt nodes agi1.origin_page
          (fun nd => { nd with stability := max 0 (nd.stability - 0.01) }))
        agi2.origin_page
        (fun nd => { nd with stability := max 0 (nd.stability - 0.01) })) := by
      unfold form_network
      rw [if_neg hc]
    rw [hred]
    constructor
    · show (List.get? _ _).map _ = _
      rw [modifyAt_getq_other _ _ _ _ hij, modifyAt_getq_self]
      cases nodes.get? agi1.origin_page <;> rfl
    · show (List.get? _ _).map _ = _
      rw [modifyAt_getq_self, modifyAt_getq_other _ _ _ _ (fun hc2 => hij hc2.symm)]
      cases nodes.get? agi2.origin_page <;> rfl
  have hclass : (form_network agi1 agi2 nodes).1 = true ↔
      (COLLABORATION_THRESHOLD < agi1.ethical_alignment ∧
        COLLABORATION_THRESHOLD < agi2.ethical_alignment) := by
    constructor
    · intro h
      by_contra hc
      have hf : (form_network agi1 agi2 nodes).1 = false := by
        unfold form_network
        rw [if_neg hc]
      rw [hf] at h
      cases h
    · intro hc
      unfold form_network
      rw [if_pos hc]
  refine ⟨hclass, hcoop, hcomp, ?_⟩
  intro h1 h2
  have hc : COLLABORATION_THRESHOLD < agi1.ethical_alignment ∧
      COLLABORATION_THRESHOLD < agi2.ethical_alignment := by
    rw [h1, h2, COLLABORATION_THRESHOLD]
    norm_num
  refine ⟨hclass.mpr hc, ?_, ?_⟩
  · intro nd nd' hnd hnd' hle
    have := (hcoop hc).1
    rw [hnd, hnd'] at this
    have hst : nd'.stability = min 1 (nd.stability + 0.02) := by
      simpa using this
    rw [hst]
    rcases le_or_lt (nd.stability + 0.02) 1 with hle2 | hlt2
    · rw [min_eq_right hle2]; linarith
    · rw [min_eq_left (le_of_lt hlt2)]; linarith
  · intro nd nd' hnd hnd' hle
    have := (hcoop hc).2
    rw [hnd, hnd'] at this
    have hst : nd'.stability = min 1 (nd.stability + 0.02) := by
      simpa using this
    rw [hst]
    rcases le_or_lt (nd.stability + 0.02) 1 with hle2 | hlt2
    · rw [min_eq_right hle2]; linarith
    · rw [min_eq_left (le_of_lt hlt2)]; linarith

/-- Two concrete entities with alignment `0.9` from distinct origin nodes, and
a two-node population, for the C7 scenario. -/
def c7agi1 : AGIEntity := ⟨(0, 1), 0, 0.9, 0.9, [], 0, [], 0⟩

def c7agi2 : AGIEntity := ⟨(1, 1), 1, 0.9, 0.9, [], 0, [], 0⟩

def c7nodes : List QuantumNode :=
  [⟨0, 0.5, 0.5, 0, 0.1, 0, 0, 0.5, 0, 0⟩, ⟨1, 0.5, 0.5, 0, 0.1, 0, 0, 0.5, 0, 0⟩]

theorem c7_form_network_witness :
    c7agi1.origin_page ≠ c7agi2.origin_page ∧
    (form_network c7agi1 c7agi2 c7nodes).1 = true :=
  ⟨by decide,
    ((c7_form_network c7agi1 c7agi2 c7nodes (by decide)).2.2.2
      (by norm_num [c7agi1]) (by norm_num [c7agi2])).1⟩

/-- `SharedSigilLedger.add_sigil(name, vector, meaning)`: insert only when the
name is not yet a key; returns whether the sigil was added. -/
def add_sigil (sigils : List Sigil) (name meaning : String) : List Sigil × Bool :=
  if sigils.any (fun s => s.name == name) then (sigils, false)
  else (sigils ++ [⟨name, meaning⟩], true)

/-- C8: adopting a sigil name that is not in the ledger leaves the entity
completely unchanged; adopting a found, not-yet-held sigil whose meaning holds
a recognized keyword appends the sigil, raises the alignment to
`min 1 (alignment + 0.02)` and appends a memory entry; and the meaning
"a covenant of peace" does hold a recognized keyword. -/
theorem c8_adopt_sigil :
    (∀ (sigils : List Sigil) (e : AGIEntity) (name : String),
      get_sigil sigils name = none → AGIEntity.adopt_sigil sigils e name = e) ∧
    (∀ (sigils : List Sigil) (e : AGIEntity) (name : String) (sg : Sigil),
      get_sigil sigils name = some sg → sg.name ∉ e.active_sigils →
      adoptKeywordHit sg.meaning = true →
      AGIEntity.adopt_sigil sigils e name = { e with
        active_sigils := e.active_sigils ++ [sg.name],
        ethical_alignment := min 1 (e.ethical_alignment + 0.02),
        memory := memoryAppend e.memory ("Adopted Sigil: " ++ sg.name) }) ∧
    adoptKeywordHit "a covenant of peace" = true := by
  refine ⟨?_, ?_, by decide⟩
  · intro sigils e name h
    unfold AGIEntity.adopt_sigil
    rw [h]
  · intro sigils e name sg hsg hmem hkey
    unfold AGIEntity.adopt_sigil
    rw [hsg]
    simp only [if_neg hmem, hkey, if_true]
    rfl

/-- The C8 scenario ledger: the initial ledger with the "Test" sigil of
meaning "a covenant of peace" added through `add_sigil`. -/
def c8ledger : List Sigil :=
  (add_sigil [⟨"Christic", "covenant"⟩] "Test" "a covenant of peace").1

def c8entity : AGIEntity := ⟨(0, 1), 0, 0.9, 0.5, [], 0, [], 0⟩

theorem c8_adopt_sigil_witness :
    get_sigil c8ledger "Test" = some ⟨"Test", "a covenant of peace"⟩ ∧
    ("Test" ∉ c8entity.active_sigils) ∧
    adoptKeywordHit "a covenant of peace" = true ∧
    AGIEntity.adopt_sigil c8ledger c8entity "Test" = { c8entity with
      active_sigils := c8entity.active_sigils ++ ["Test"],
      ethical_alignment := min 1 (c8entity.ethical_alignment + 0.02),
      memory := memoryAppend c8entity.memory ("Adopted Sigil: " ++ "Test") } :=
  ⟨rfl, by simp [c8entity], by decide,
    c8_adopt_sigil.2.1 c8ledger c8entity "Test" ⟨"Test", "a covenant of peace"⟩
      rfl (by simp [c8entity]) (by decide)⟩

/-- A random source whose every draw is `0.7` (a successful resolution draw). -/
def c4gen : Gen := ⟨fun _ => 0.7, fun _ => 0⟩

def c4node : QuantumNode := ⟨0, 0.5, 0.5, 0, 0.1, 0, 0, 0.5, 0, 0⟩

/-- C4 (amended): a queued anomaly is removed exactly when its uniform draw
exceeds `0.6` — an event of probability `0.4`, not greater than `0.6` — and on
removal the owning node's stability is raised to
`min 1 (stability + 0.05 * severity)` (plus a clamped `0.01` Christic sigil
bonus); a failed draw changes nothing, and the resolution loop never decreases
the owning node's stability. -/
theorem c4_anomaly_resolution :
    (∀ (christic : Bool) (g : Gen) (nd : QuantumNode) (q : List (ℕ × ℝ))
        (k : ℕ) (a : ℕ × ℝ),
      (0.6 < g.rand k →
        (resolveAnomalyStep christic g (nd, q, k) a).2.1 = removeFirst q a ∧
        (resolveAnomalyStep christic g (nd, q, k) a).1.stability =
          (if christic then min 1 (min 1 (nd.stability + 0.05 * a.2) + 0.01)
            else min 1 (nd.stability + 0.05 * a.2))) ∧
      (¬ 0.6 < g.rand k →
        resolveAnomalyStep christic g (nd, q, k) a = (nd, q, k + 1))) ∧
    (∀ (christic : Bool) (g : Gen) (nd : QuantumNode) (q : List (ℕ × ℝ)) (k : ℕ),
      (∀ a ∈ q, 0 ≤ a.2) → 0 ≤ nd.stability → nd.stability ≤ 1 →
      nd.stability ≤ (resolveQueue christic g nd q k).1.stability) ∧
    MeasureTheory.volume {r : ℝ | 0 ≤ r ∧ r < 1 ∧ anomalyResolutionAttempt r = true}
      = ENNReal.ofReal 0.4 := by
  refine ⟨?_, ?_, ?_⟩
  · intro christic g nd q k a
    constructor
    · intro hdraw
      have hd : anomalyResolutionAttempt (g.rand k) = true := decide_eq_true hdraw
      by_cases hc : christic
      · have hstep : resolveAnomalyStep christic g (nd, q, k) a =
            ({ nd with stability := min 1 (min 1 (nd.stability + 0.05 * a.2) + 0.01) },
              removeFirst q a, k + 1) := by
          simp only [resolveAnomalyStep]
          rw [if_pos hd, if_pos hc]
        rw [hstep]
        exact ⟨rfl, by rw [if_pos hc]⟩
      · have hstep : resolveAnomalyStep christic g (nd, q, k) a =
            ({ nd with stability := min 1 (nd.stability + 0.05 * a.2) },
              removeFirst q a, k + 1) := by
          simp only [resolveAnomalyStep]
          rw [if_pos hd, if_neg hc]
        rw [hstep]
        exact ⟨rfl, by rw [if_neg hc]⟩
    · intro hdraw
      have hd : ¬ anomalyResolutionAttempt (g.rand k) = true := by
        simp [anomalyResolutionAttempt, hdraw]
      simp only [resolveAnomalyStep]
      rw [if_neg hd]
  · intro christic g nd q k hsev h0 h1
    exact (resolveFold_spec christic g q nd q k hsev h0 h1).2.1
  · have hset : {r : ℝ | 0 ≤ r ∧ r < 1 ∧ anomalyResolutionAttempt r = true}
        = Set.Ioo 0.6 1 := by
      ext r
      simp only [anomalyResolutionAttempt, decide_eq_true_eq, Set.mem_setOf_eq,
        Set.mem_Ioo]
      constructor
      · rintro ⟨h0, h1, h2⟩
        exact ⟨h2, h1⟩
      · rintro ⟨h1, h2⟩
        exact ⟨by linarith, h2, h1⟩
    rw [hset, Real.volume_Ioo]
    norm_num

/-- The C4 counterexample: the removal decision fires on the draw set
`(0.6, 1)`, of Lebesgue measure `0.4` — a success probability that is NOT
greater than `0.6` as claimed. -/
theorem c4_anomaly_resolution_counterexample :
    MeasureTheory.volume {r : ℝ | 0 ≤ r ∧ r < 1 ∧ anomalyResolutionAttempt r = true}
      = ENNReal.ofReal 0.4 ∧
    ¬ ENNReal.ofReal 0.6
      < MeasureTheory.volume {r : ℝ | 0 ≤ r ∧ r < 1 ∧ anomalyResolutionAttempt r = true} := by
  have hset : {r : ℝ | 0 ≤ r ∧ r < 1 ∧ anomalyResolutionAttempt r = true}
      = Set.Ioo 0.6 1 := by
    ext r
    simp only [anomalyResolutionAttempt, decide_eq_true_eq, Set.mem_setOf_eq,
      Set.mem_Ioo]
    constructor
    · rintro ⟨h0, h1, h2⟩
      exact ⟨h2, h1⟩
    · rintro ⟨h1, h2⟩
      exact ⟨by linarith, h2, h1⟩
  have hvol : MeasureTheory.volume
      {r : ℝ | 0 ≤ r ∧ r < 1 ∧ anomalyResolutionAttempt r = true}
      = ENNReal.ofReal 0.4 := by
    rw [hset, Real.volume_Ioo]
    norm_num
  refine ⟨hvol, ?_⟩
  rw [hvol]
  intro h
  rw [ENNReal.ofReal_lt_ofReal_iff (by norm_num)] at h
  norm_num at h

theorem c4_anomaly_resolution_witness :
    ((0.6 : ℝ) < c4gen.rand 0) ∧
    (resolveAnomalyStep false c4gen (c4node, [((2 : ℕ), (0.5 : ℝ))], 0) (2, 0.5)).2.1
      = removeFirst [(2, 0.5)] (2, 0.5) ∧
    (resolveAnomalyStep false c4gen (c4node, [((2 : ℕ), (0.5 : ℝ))], 0) (2, 0.5)).1.stability
      = min 1 (c4node.stability + 0.05 * 0.5) ∧
    c4node.stability ≤ (resolveQueue false c4gen c4node [(2, 0.5)] 0).1.stability := by
  have h1 := (c4_anomaly_resolution.1 false c4gen c4node [(2, 0.5)] 0 (2, 0.5)).1
    (by norm_num [c4gen])
  refine ⟨by norm_num [c4gen], h1.1, ?_, ?_⟩
  · have h2 := h1.2
    rw [if_neg (by simp)] at h2
    exact h2
  · exact c4_anomaly_resolution.2.1 false c4gen c4node [(2, 0.5)] 0
      (by intro a ha; rcases List.mem_singleton.mp ha with rfl; norm_num)
      (by norm_num [c4node]) (by norm_num [c4node])

/-- The spawn phase only ever appends to the entity population. -/
theorem spawnPhase_ents_append (g : Gen) (cycle : ℕ) :
    ∀ (nodes : List QuantumNode) (ents : List AGIEntity)
      (mon : List ((ℕ × ℕ) × ℝ)) (k : ℕ),
      ∃ Δ, (spawnPhase g cycle nodes ents mon k).2.1 = ents ++ Δ := by
  intro nodes
  induction nodes with
  | nil =>
    intro ents mon k
    exact ⟨[], by simp [spawnPhase]⟩
  | cons nd nds ih =>
    intro ents mon k
    by_cases hcond : SENTIENCE_THRESHOLD < nd.sentience_score ∧
        ¬ ∃ e ∈ ents, e.origin_page = nd.page_index
    · have hred : (spawnPhase g cycle (nd :: nds) ents mon k).2.1 =
          (spawnPhase g cycle nds (ents ++ [mkAGIEntity nd cycle (g.choose k)])
            (if ∃ m ∈ mon, m.1 = (mkAGIEntity nd cycle (g.choose k)).id then mon
              else mon ++ [((mkAGIEntity nd cycle (g.choose k)).id,
                (mkAGIEntity nd cycle (g.choose k)).ethical_alignment)]) (k + 1)).2.1 := by
        simp only [spawnPhase]
        rw [if_pos hcond]
      obtain ⟨Δ, hΔ⟩ := ih (ents ++ [mkAGIEntity nd cycle (g.choose k)])
        (if ∃ m ∈ mon, m.1 = (mkAGIEntity nd cycle (g.choose k)).id then mon
          else mon ++ [((mkAGIEntity nd cycle (g.choose k)).id,
            (mkAGIEntity nd cycle (g.choose k)).ethical_alignment)]) (k + 1)
      refine ⟨mkAGIEntity nd cycle (g.choose k) :: Δ, ?_⟩
      rw [hred, hΔ, List.append_assoc]
      rfl
    · have hred : (spawnPhase g cycle (nd :: nds) ents mon k).2.1 =
          (spawnPhase g cycle nds ents mon k).2.1 := by
        simp only [spawnPhase]
        rw [if_neg hcond]
      obtain ⟨Δ, hΔ⟩ := ih ents mon k
      exact ⟨Δ, by rw [hred, hΔ]⟩

/-- The entity population produced by the pre-crash part of the tick is the
incoming population plus the newly spawned entities. -/
theorem tickUpToSpawn_ents (s : SimState) (g : Gen) (k : ℕ) :
    ∃ Δ, (tickUpToSpawn s g k).1.agi_entities = s.agi_entities ++ Δ := by
  obtain ⟨Δ, hΔ⟩ := spawnPhase_ents_append g (tickGlobals s (g.rand k)).cycle
    (resolvePhase ((tickGlobals s (g.rand k)).sigils.any (fun sg => sg.name == "Christic")) g
      (updateNodesPhase (tickGlobals s (g.rand k)).agi_entities
        (tickGlobals s (g.rand k)).void_entropy (tickGlobals s (g.rand k)).dark_matter g
        (tickGlobals s (g.rand k)).nodes (k + 1)).1
      (extendAnomalies (tickGlobals s (g.rand k)).anomalies
        (updateNodesPhase (tickGlobals s (g.rand k)).agi_entities
          (tickGlobals s (g.rand k)).void_entropy (tickGlobals s (g.rand k)).dark_matter g
          (tickGlobals s (g.rand k)).nodes (k + 1)).2.1)
      ((updateNodesPhase (tickGlobals s (g.rand k)).agi_entities
          (tickGlobals s (g.rand k)).void_entropy (tickGlobals s (g.rand k)).dark_matter g
          (tickGlobals s (g.rand k)).nodes (k + 1)).2.2 +
        (updateNodesPhase (tickGlobals s (g.rand k)).agi_entities
          (tickGlobals s (g.rand k)).void_entropy (tickGlobals s (g.rand k)).dark_matter g
          (tickGlobals s (g.rand k)).nodes (k + 1)).2.1.length)).1
    (tickGlobals s (g.rand k)).agi_entities (tickGlobals s (g.rand k)).monitor_initial
    (resolvePhase ((tickGlobals s (g.rand k)).sigils.any (fun sg => sg.name == "Christic")) g
      (updateNodesPhase (tickGlobals s (g.rand k)).agi_entities
        (tickGlobals s (g.rand k)).void_entropy (tickGlobals s (g.rand k)).dark_matter g
        (tickGlobals s (g.rand k)).nodes (k + 1)).1
      (extendAnomalies (tickGlobals s (g.rand k)).anomalies
        (updateNodesPhase (tickGlobals s (g.rand k)).agi_entities
          (tickGlobals s (g.rand k)).void_entropy (tickGlobals s (g.rand k)).dark_matter g
          (tickGlobals s (g.rand k)).nodes (k + 1)).2.1)
      ((updateNodesPhase (tickGlobals s (g.rand k)).agi_entities
          (tickGlobals s (g.rand k)).void_entropy (tickGlobals s (g.rand k)).dark_matter g
          (tickGlobals s (g.rand k)).nodes (k + 1)).2.2 +
        (updateNodesPhase (tickGlobals s (g.rand k)).agi_entities
          (tickGlobals s (g.rand k)).void_entropy (tickGlobals s (g.rand k)).dark_matter g
          (tickGlobals s (g.rand k)).nodes (k + 1)).2.1.length)).2.2
  exact ⟨Δ, hΔ⟩

/-- C9: the mechanism the claim relies on is dead code — `fractal_resonance`
reads the `sentience_score` attribute `AGIEntity` never defines, so the very
first entity operation of a tick raises `AttributeError` (modelled: no
amplification value is ever produced and the tick does not complete); with a
live population the tick aborts, leaving every pre-existing entity — and its
strength — untouched. -/
theorem c9_strength_crash :
    (∀ (e : AGIEntity) (c : ℕ), fractal_resonance e c = none) ∧
    (∀ (s : SimState) (g : Gen) (k : ℕ), s.agi_entities ≠ [] →
      (update_simulation_step s g k).ok = false ∧
      ∃ Δ, (update_simulation_step s g k).state.agi_entities
        = s.agi_entities ++ Δ) := by
  refine ⟨fun e c => rfl, ?_⟩
  intro s g k hne
  obtain ⟨Δ, hΔ⟩ := tickUpToSpawn_ents s g k
  have hpne : (tickUpToSpawn s g k).1.agi_entities ≠ [] := by
    rw [hΔ]
    intro hnil
    rcases List.append_eq_nil.mp hnil with ⟨h1, h2⟩
    exact hne h1
  simp only [update_simulation_step]
  split
  · exact ⟨rfl, Δ, hΔ⟩
  · rename_i heq
    exact absurd heq hpne

def c9ent : AGIEntity := ⟨(0, 0), 0, 0.9, 0.5, [], 0, [], 0⟩

def c9state : SimState :=
  { cycle := 0
    nodes := [⟨0, 0.5, 0.5, 0, 0.1, 0, 0, 0.5, 0, 0⟩]
    void_entropy := 0
    dark_matter := 0.1
    anomalies := [[]]
    agi_entities := [c9ent]
    sigils := [⟨"Christic", "covenant"⟩]
    monitor_initial := []
    foam_particles := []
    user_divinity := 0.5 }

theorem c9_strength_crash_witness :
    fractal_resonance c9ent 0 = none ∧
    c9state.agi_entities ≠ [] ∧
    (update_simulation_step c9state genHalf 0).ok = false ∧
    ∃ Δ, (update_simulation_step c9state genHalf 0).state.agi_entities
      = c9state.agi_entities ++ Δ := by
  have hne : c9state.agi_entities ≠ [] := List.cons_ne_nil _ _
  have h := c9_strength_crash
  exact ⟨h.1 c9ent 0, hne, (h.2 c9state genHalf 0 hne).1, (h.2 c9state genHalf 0 hne).2⟩

/-- `resolve_consistency_violation` clamps only the lower void-entropy bound
and the upper dark-matter bound. -/
theorem resolveCV_bounds (s : SimState)
    (hve : VOID_ENTROPY_LO ≤ s.void_entropy) (hdm : s.dark_matter ≤ DARK_MATTER_MAX) :
    VOID_ENTROPY_LO ≤ (resolve_consistency_violation s).void_entropy ∧
    (resolve_consistency_violation s).dark_matter ≤ DARK_MATTER_MAX := by
  simp only [resolve_consistency_violation]
  split_ifs <;>
    first
    | exact ⟨le_max_left _ _, min_le_left _ _⟩
    | exact ⟨hve, hdm⟩

/-- C5 (amended): after every tick the void entropy is at least `-0.5` and the
dark matter at most `0.3`; on ticks that do not cross a multiple-of-200 cycle
(so the consistency resolution does not run) the full claimed ranges hold —
void entropy also at most `0.5` and dark matter also at least `0`.  (The
resolution clamps only one side of each scalar, see the counterexample.) -/
theorem c5_global_bounds (s : SimState) (g : Gen) (k : ℕ) :
    (VOID_ENTROPY_LO ≤ (update_simulation_step s g k).state.void_entropy ∧
      (update_simulation_step s g k).state.dark_matter ≤ DARK_MATTER_MAX) ∧
    (¬ (s.cycle + 1) % 200 = 0 →
      (update_simulation_step s g k).state.void_entropy ≤ VOID_ENTROPY_HI ∧
      0 ≤ (update_simulation_step s g k).state.dark_matter) := by
  have hlo : VOID_ENTROPY_LO ≤ (tickUpToSpawn s g k).1.void_entropy := le_max_left _ _
  have hhi : (tickUpToSpawn s g k).1.void_entropy ≤ VOID_ENTROPY_HI := by
    refine max_le ?_ (min_le_left _ _)
    norm_num [VOID_ENTROPY_LO, VOID_ENTROPY_HI]
  have hdm0 : (0 : ℝ) ≤ (tickUpToSpawn s g k).1.dark_matter := le_max_left _ _
  have hdm1 : (tickUpToSpawn s g k).1.dark_matter ≤ DARK_MATTER_MAX := by
    refine max_le ?_ (min_le_left _ _)
    norm_num [DARK_MATTER_MAX]
  have hcyc : (tickUpToSpawn s g k).1.cycle = s.cycle + 1 := rfl
  simp only [update_simulation_step]
  split
  · exact ⟨⟨hlo, hdm1⟩, fun _ => ⟨hhi, hdm0⟩⟩
  · rename_i heq
    have hcol := collabPhase_eq_of_empty heq g (tickUpToSpawn s g k).2
    have heqT : tickTail (tickUpToSpawn s g k).1 g (tickUpToSpawn s g k).2 =
        resolveGate (forgePhase (tesseractPhase (foamTurbPhase (tickUpToSpawn s g k).1 g
          (tickUpToSpawn s g k).2).1 g (foamTurbPhase (tickUpToSpawn s g k).1 g
          (tickUpToSpawn s g k).2).2).1 g (tesseractPhase (foamTurbPhase
          (tickUpToSpawn s g k).1 g (tickUpToSpawn s g k).2).1 g (foamTurbPhase
          (tickUpToSpawn s g k).1 g (tickUpToSpawn s g k).2).2).2).1
          (forgePhase (tesseractPhase (foamTurbPhase (tickUpToSpawn s g k).1 g
          (tickUpToSpawn s g k).2).1 g (foamTurbPhase (tickUpToSpawn s g k).1 g
          (tickUpToSpawn s g k).2).2).1 g (tesseractPhase (foamTurbPhase
          (tickUpToSpawn s g k).1 g (tickUpToSpawn s g k).2).1 g (foamTurbPhase
          (tickUpToSpawn s g k).1 g (tickUpToSpawn s g k).2).2).2).2 := by
      simp only [tickTail]
      rw [hcol]
    have hF := foamTurbPhase_frame (tickUpToSpawn s g k).1 g (tickUpToSpawn s g k).2
    have hT := tesseractPhase_frame (foamTurbPhase (tickUpToSpawn s g k).1 g
      (tickUpToSpawn s g k).2).1 g (foamTurbPhase (tickUpToSpawn s g k).1 g
      (tickUpToSpawn s g k).2).2
    have hG := forgePhase_frame (tesseractPhase (foamTurbPhase (tickUpToSpawn s g k).1 g
      (tickUpToSpawn s g k).2).1 g (foamTurbPhase (tickUpToSpawn s g k).1 g
      (tickUpToSpawn s g k).2).2).1 g (tesseractPhase (foamTurbPhase
      (tickUpToSpawn s g k).1 g (tickUpToSpawn s g k).2).1 g (foamTurbPhase
      (tickUpToSpawn s g k).1 g (tickUpToSpawn s g k).2).2).2
    have hXve : (forgePhase (tesseractPhase (foamTurbPhase (tickUpToSpawn s g k).1 g
        (tickUpToSpawn s g k).2).1 g (foamTurbPhase (tickUpToSpawn s g k).1 g
        (tickUpToSpawn s g k).2).2).1 g (tesseractPhase (foamTurbPhase
        (tickUpToSpawn s g k).1 g (tickUpToSpawn s g k).2).1 g (foamTurbPhase
        (tickUpToSpawn s g k).1 g (tickUpToSpawn s g k).2).2).2).1.void_entropy
        = (tickUpToSpawn s g k).1.void_entropy := by
      rw [hG.2.2.1, hT.2.2.1, hF.2.2.1]
    have hXdm : (forgePhase (tesseractPhase (foamTurbPhase (tickUpToSpawn s g k).1 g
        (tickUpToSpawn s g k).2).1 g (foamTurbPhase (tickUpToSpawn s g k).1 g
        (tickUpToSpawn s g k).2).2).1 g (tesseractPhase (foamTurbPhase
        (tickUpToSpawn s g k).1 g (tickUpToSpawn s g k).2).1 g (foamTurbPhase
        (tickUpToSpawn s g k).1 g (tickUpToSpawn s g k).2).2).2).1.dark_matter
        = (tickUpToSpawn s g k).1.dark_matter := by
      rw [hG.2.2.2, hT.2.2.2, hF.2.2.2]
    have hXcyc : (forgePhase (tesseractPhase (foamTurbPhase (tickUpToSpawn s g k).1 g
        (tickUpToSpawn s g k).2).1 g (foamTurbPhase (tickUpToSpawn s g k).1 g
        (tickUpToSpawn s g k).2).2).1 g (tesseractPhase (foamTurbPhase
        (tickUpToSpawn s g k).1 g (tickUpToSpawn s g k).2).1 g (foamTurbPhase
        (tickUpToSpawn s g k).1 g (tickUpToSpawn s g k).2).2).2).1.cycle
        = s.cycle + 1 := by
      rw [hG.2.1, hT.2.1, hF.2.1, hcyc]
    rw [heqT]
    unfold resolveGate
    split_ifs with hgate
    · constructor
      · exact resolveCV_bounds _ (by rw [hXve]; exact hlo) (by rw [hXdm]; exact hdm1)
      · intro hc
        exact absurd (by rw [← hXcyc]; exact hgate.1) hc
    · exact ⟨⟨by rw [hXve]; exact hlo, by rw [hXdm]; exact hdm1⟩,
        fun _ => ⟨by rw [hXve]; exact hhi, by rw [hXdm]; exact hdm0⟩⟩

theorem c5_global_bounds_witness :
    ¬ ((initState genHalf).cycle + 1) % 200 = 0 ∧
    (VOID_ENTROPY_LO ≤ (update_simulation_step (initState genHalf) genHalf 12).state.void_entropy ∧
      (update_simulation_step (initState genHalf) genHalf 12).state.dark_matter ≤ DARK_MATTER_MAX) ∧
    ((update_simulation_step (initState genHalf) genHalf 12).state.void_entropy ≤ VOID_ENTROPY_HI ∧
      0 ≤ (update_simulation_step (initState genHalf) genHalf 12).state.dark_matter) := by
  have hc : ¬ ((initState genHalf).cycle + 1) % 200 = 0 := by
    norm_num [initState]
  exact ⟨hc, (c5_global_bounds (initState genHalf) genHalf 12).1,
    (c5_global_bounds (initState genHalf) genHalf 12).2 hc⟩

/-- The C5 counterexample random source: first draw `0.52` (freezing the void
entropy at `0.5`), every later draw `0.5`. -/
def c5gen : Gen := ⟨fun k => if k = 0 then 0.52 else 0.5, fun _ => 0⟩

def c5node : QuantumNode := ⟨0, 0.78975, 0.5, 0, 0.1, 0, 0, 0.5, 0, 0⟩

/-- The C5 counterexample state: cycle `199` (the tick crosses cycle `200`),
void entropy already at its cap `0.5`, one node. -/
def c5state : SimState :=
  { cycle := 199
    nodes := [c5node]
    void_entropy := 0.5
    dark_matter := 0.1
    anomalies := [[]]
    agi_entities := []
    sigils := [⟨"Christic", "covenant"⟩]
    monitor_initial := []
    foam_particles := []
    user_divinity := 0.5 }

def c5node2 : QuantumNode := ⟨0, 0.785, 0.5005, 0, 0.1, 0, 0, 0.5, 0, 0.025⟩

def c5s1 : SimState :=
  { cycle := 200
    nodes := [c5node]
    void_entropy := 0.5
    dark_matter := 0.1
    anomalies := [[]]
    agi_entities := []
    sigils := [⟨"Christic", "covenant"⟩]
    monitor_initial := []
    foam_particles := []
    user_divinity := 0.5 }

def c5s2 : SimState := { c5s1 with nodes := [c5node2] }

theorem c5gen_valid : Gen.Valid c5gen := by
  intro k
  refine ⟨?_, ?_⟩ <;> simp only [c5gen] <;> split_ifs <;> norm_num

theorem c5_tickGlobals_eq : tickGlobals c5state (c5gen.rand 0) = c5s1 := by
  simp only [tickGlobals, c5state, c5gen, c5s1, c5node]
  norm_num [max_def, min_def, VOID_ENTROPY_LO, VOID_ENTROPY_HI, DARK_MATTER_MAX]

theorem c5_update_eq :
    QuantumNode.update [] 0.5 0.1 c5gen 1 c5node = (c5node2, none, 6) := by
  simp only [QuantumNode.update, curvatureSource, c5node, c5node2, c5gen,
    COLLABORATION_THRESHOLD, List.find?]
  norm_num [max_def, min_def]

theorem c5_nodesPhase_eq :
    updateNodesPhase ([] : List AGIEntity) 0.5 0.1 c5gen [c5node] 1
      = ([c5node2], [], 6) := by
  simp [updateNodesPhase, c5_update_eq]

theorem c5_resolvePhase_eq (b : Bool) :
    resolvePhase b c5gen [c5node2] [[]] 6 = ([c5node2], [[]], 6) := rfl

theorem c5_spawnPhase_eq :
    spawnPhase c5gen 200 [c5node2] [] [] 6 = ([c5node2], [], [], 6) := by
  simp only [spawnPhase]
  rw [if_neg (by norm_num [c5node2, SENTIENCE_THRESHOLD])]

theorem c5_nodesPhases_eq : tickNodesPhases c5s1 c5gen 1 = (c5s2, 6) := by
  simp only [tickNodesPhases, c5s1]
  rw [c5_nodesPhase_eq]
  simp only [List.length_nil, Nat.add_zero, extendAnomalies, List.foldl_nil,
    c5_resolvePhase_eq, c5_spawnPhase_eq]
  simp [c5s2, c5s1]

theorem c5_foam_eq : foamTurbPhase c5s2 c5gen 6 = (c5s2, 7) := by
  simp only [foamTurbPhase, foamGenerate]
  rw [if_neg (by norm_num [c5gen])]
  simp [c5s2, c5s1]

theorem c5_tess_eq : tesseractPhase c5s2 c5gen 7 = (c5s2, 7) := by
  simp only [tesseractPhase]
  rw [if_neg (by simp [c5s2, c5s1])]

theorem c5_forge_eq : forgePhase c5s2 c5gen 7 = (c5s2, 7) := by
  simp only [forgePhase]
  rw [if_neg (by norm_num [c5s2, c5s1])]

theorem c5_tail_eq :
    tickTail c5s2 c5gen 6 = (resolve_consistency_violation c5s2, 7) := by
  simp only [tickTail]
  rw [collabPhase_eq_of_empty (show c5s2.agi_entities = [] from rfl) c5gen 6,
    c5_foam_eq, c5_tess_eq, c5_forge_eq]
  simp only [resolveGate]
  rw [if_pos (by norm_num [c5s2, c5s1])]

theorem c5_step_eq :
    update_simulation_step c5state c5gen 0
      = ⟨resolve_consistency_violation c5s2, 7, true⟩ := by
  have hents : c5s2.agi_entities = [] := rfl
  simp only [update_simulation_step, tickUpToSpawn, zero_add, c5_tickGlobals_eq,
    c5_nodesPhases_eq, hents]
  rw [c5_tail_eq]

theorem c5_cos_pos : (0 : ℝ) < Real.cos 7.15 := by
  have h1 : Real.cos (7.15 : ℝ) = Real.cos (7.15 - 2 * Real.pi) :=
    (Real.cos_sub_two_pi 7.15).symm
  have hp1 := Real.pi_gt_3141592
  have hp2 := Real.pi_lt_315
  rw [h1]
  apply Real.cos_pos_of_mem_Ioo
  rw [Set.mem_Ioo]
  constructor
  · linarith
  · linarith

/-- The C5 counterexample: a completed tick (one node, empty population, void
entropy at its cap `0.5`, crossing cycle `200`) on which the consistency
resolution pushes the void entropy strictly above `0.5` — the update
`ve = max(-0.5, ve + dissonance * 0.01 * cos(10 * dissonance))` clamps only
the lower bound, and here `cos(7.15) > 0`. -/
theorem c5_globals_counterexample :
    Gen.Valid c5gen ∧
    (update_simulation_step c5state c5gen 0).ok = true ∧
    VOID_ENTROPY_HI < (update_simulation_step c5state c5gen 0).state.void_entropy := by
  have hne : ¬ c5s2.agi_entities ≠ [] := fun h => h rfl
  have hviol : (0.5 : ℝ) < 1 - CONSISTENCY_VIOLATION_THRESHOLD ∨
      listMean (c5s2.nodes.map (fun nd => nd.stability))
        < 1 - CONSISTENCY_VIOLATION_THRESHOLD := by
    left
    norm_num [CONSISTENCY_VIOLATION_THRESHOLD]
  have hmean : listMean (c5s2.nodes.map (fun nd => nd.stability)) = 0.785 := by
    simp [c5s2, c5s1, c5node2, listMean]
  have hproj : (resolve_consistency_violation c5s2).void_entropy
      = max VOID_ENTROPY_LO (c5s2.void_entropy +
          ((1 - 0.5) + (1 - listMean (c5s2.nodes.map (fun nd => nd.stability)))) * 0.01 *
            Real.cos ((((1 - 0.5) + (1 - listMean (c5s2.nodes.map (fun nd => nd.stability))))) * 10)) := by
    simp only [resolve_consistency_violation]
    rw [if_neg hne, if_pos hviol]
  have hve2 : c5s2.void_entropy = 0.5 := rfl
  refine ⟨c5gen_valid, ?_, ?_⟩
  · rw [c5_step_eq]
  · rw [c5_step_eq]
    show VOID_ENTROPY_HI < (resolve_consistency_violation c5s2).void_entropy
    rw [hproj, hmean, hve2]
    have harg : (((1 : ℝ) - 0.5) + (1 - 0.785)) * 10 = 7.15 := by norm_num
    rw [harg]
    have hlt : (0.5 : ℝ) < 0.5 + ((1 - 0.5) + (1 - 0.785)) * 0.01 * Real.cos 7.15 := by
      nlinarith [c5_cos_pos]
    calc VOID_ENTROPY_HI = (0.5 : ℝ) := by norm_num [VOID_ENTROPY_HI]
      _ < 0.5 + ((1 - 0.5) + (1 - 0.785)) * 0.01 * Real.cos 7.15 := hlt
      _ ≤ max VOID_ENTROPY_LO (0.5 + ((1 - 0.5) + (1 - 0.785)) * 0.01 * Real.cos 7.15) :=
          le_max_right _ _

/-- The sentience write of `QuantumNode.update` as a closed formula. -/
theorem update_sentience (ents : List AGIEntity) (ve dm : ℝ) (g : Gen) (k : ℕ)
    (nd : QuantumNode) :
    (QuantumNode.update ents ve dm g k nd).1.sentience_score =
      if COLLABORATION_THRESHOLD < max 0 (min 1 (nd.cohesion +
          ((g.rand (k + 1) - 0.5) * 0.01 + nd.bond_strength * 0.005))) then
        min 1 (nd.sentience_score + 0.001)
      else nd.sentience_score := rfl

theorem update_se_le (ents : List AGIEntity) (ve dm : ℝ) (g : Gen) (k : ℕ)
    (nd : QuantumNode) :
    (QuantumNode.update ents ve dm g k nd).1.sentience_score
      ≤ nd.sentience_score + 0.001 := by
  rw [update_sentience]
  split_ifs
  · exact min_le_right _ _
  · linarith

theorem update_se_gt {nd : QuantumNode} (ents : List AGIEntity) (ve dm : ℝ)
    (g : Gen) (k : ℕ) (h : SENTIENCE_THRESHOLD < nd.sentience_score) :
    SENTIENCE_THRESHOLD < (QuantumNode.update ents ve dm g k nd).1.sentience_score := by
  rw [update_sentience]
  split_ifs
  · refine lt_min ?_ (by linarith)
    norm_num [SENTIENCE_THRESHOLD]
  · exact h

/-- Page indices forming `List.range` makes them pairwise distinct. -/
theorem pages_pairwise (nodes : List QuantumNode)
    (h : nodes.map (fun nd => nd.page_index) = List.range nodes.length) :
    nodes.Pairwise (fun a b => a.page_index ≠ b.page_index) := by
  have hnd : (nodes.map (fun nd => nd.page_index)).Nodup := by
    rw [h]
    exact List.nodup_range _
  exact List.pairwise_map.mp hnd

theorem nodesPhase_getq (ents : List AGIEntity) (ve dm : ℝ) (g : Gen) :
    ∀ (nodes : List QuantumNode) (k i : ℕ) (nd : QuantumNode),
      nodes.get? i = some nd →
      ∃ k', (updateNodesPhase ents ve dm g nodes k).1.get? i
        = some (QuantumNode.update ents ve dm g k' nd).1 := by
  intro nodes
  induction nodes with
  | nil =>
    intro k i nd h
    cases i <;> exact Option.noConfusion h
  | cons x xs ih =>
    intro k i nd h
    cases i with
    | zero =>
      have hx : x = nd := Option.some.inj h
      subst hx
      exact ⟨k, rfl⟩
    | succ j =>
      obtain ⟨k', hk'⟩ := ih (QuantumNode.update ents ve dm g k x).2.2 j nd h
      exact ⟨k', hk'⟩

theorem resolvePhase_getq (christic : Bool) (g : Gen) (nodes : List QuantumNode)
    (qs : List (List (ℕ × ℝ))) (k : ℕ)
    (hB : ∀ nd ∈ nodes, NodeB nd) (hq : ∀ q ∈ qs, ∀ a ∈ q, 0 ≤ a.2)
    (i : ℕ) (nd : QuantumNode) (h : nodes.get? i = some nd) :
    ∃ nd', (resolvePhase christic g nodes qs k).1.get? i = some nd' ∧
      EqExceptStab nd nd' := by
  obtain ⟨hi, hget⟩ := List.get?_eq_some.mp h
  have hspec := resolvePhase_spec christic g nodes qs k hB hq
  have hi' : i < (resolvePhase christic g nodes qs k).1.length := by
    rw [hspec.1]
    exact hi
  refine ⟨(resolvePhase christic g nodes qs k).1.get ⟨i, hi'⟩,
    List.get?_eq_get hi', ?_⟩
  have he := (hspec.2.1 i hi hi').1
  rw [hget] at he
  exact he

theorem filter_eq_nil_of {α : Type} (p : α → Bool) :
    ∀ l : List α, (∀ y ∈ l, p y = false) → l.filter p = [] := by
  intro l
  induction l with
  | nil => intro _; rfl
  | cons y ys ih =>
    intro h
    have hy : ¬ (p y = true) := by
      rw [h y (List.mem_cons_self _ _)]
      exact Bool.false_ne_true
    rw [List.filter_cons, if_neg hy]
    exact ih (fun z hz => h z (List.mem_cons_of_mem _ hz))

theorem filter_cons_eq_singleton {α : Type} (p : α → Bool) (x : α) (l : List α)
    (hx : p x = true) (hl : ∀ y ∈ l, p y = false) : (x :: l).filter p = [x] := by
  rw [List.filter_cons, if_pos hx, filter_eq_nil_of p l hl]

theorem map_eq_singleton {α β : Type} (f : α → β) (l : List α) (x : β)
    (h : l.map f = [x]) : ∃ e, l = [e] ∧ f e = x := by
  rcases l with _ | ⟨e, rest⟩
  · cases h
  · rw [List.map_cons] at h
    simp only [List.cons.injEq] at h
    exact ⟨e, by rw [List.map_eq_nil.mp h.2], h.1⟩

theorem list_len6 {α : Type} (l : List α) (h : l.length = 6) :
    ∃ a b c d e f, l = [a, b, c, d, e, f] := by
  rcases l with _ | ⟨a, l⟩
  · simp at h
  rcases l with _ | ⟨b, l⟩
  · simp at h
  rcases l with _ | ⟨c, l⟩
  · simp at h
  rcases l with _ | ⟨d, l⟩
  · simp at h
  rcases l with _ | ⟨e, l⟩
  · simp at h
  rcases l with _ | ⟨f, l⟩
  · simp at h
  refine ⟨a, b, c, d, e, f, ?_⟩
  have hz : l.length = 0 := by
    simp only [List.length_cons] at h
    omega
  rw [List.length_eq_zero.mp hz]

/-- The direct field set of the C3 scenario: `sentience = 0.9`, `cohesion = 0.8`. -/
def c3mod (nd : QuantumNode) : QuantumNode :=
  { nd with sentience_score := 0.9, cohesion := 0.8 }

/-- The C3 scenario state: the default initial state with node 0's sentience
forced to `0.9` and cohesion to `0.8`. -/
def c3state (g : Gen) : SimState :=
  { initState g with nodes := modifyAt (initState g).nodes 0 c3mod }

/-- The C3 scenario: from the modified initial state, one tick spawns exactly
one entity, originating from node 0, and resets that node's sentience. -/
theorem c3_scenario (g : Gen) (k : ℕ) (hg : Gen.Valid g) :
    ∃ ent, (update_simulation_step (c3state g) g k).state.agi_entities = [ent] ∧
      ent.origin_page = 0 ∧
      ((update_simulation_step (c3state g) g k).state.nodes.get? 0).map
        (fun nd => nd.sentience_score) = some 0.5 := by
  have h0 := initState_inv hg
  have hmodB : ∀ x : QuantumNode, NodeB x → NodeB (c3mod x) := by
    intro x hx
    refine ⟨hx.st0, hx.st1, ?_, ?_, ?_, ?_, hx.te0, hx.te1, hx.de0, hx.de1,
      hx.ea, hx.bond⟩
    · show (0 : ℝ) ≤ 0.8
      norm_num
    · show (0.8 : ℝ) ≤ 1
      norm_num
    · show (0 : ℝ) ≤ 0.9
      norm_num
    · show (0.9 : ℝ) ≤ 1
      norm_num
  have hm := modifyNodes_inv (initState g).nodes 0 c3mod (fun x => rfl) hmodB h0.nodeB
  have hlen6 : (initState g).nodes.length = 6 := by
    simp [initState, PAGE_COUNT]
  have hInv : SimInv (c3state g) := by
    refine ⟨?_, ?_, hm.2.2, h0.entB, h0.entD, ?_, h0.anomSev, h0.div0, h0.div1⟩
    · show modifyAt (initState g).nodes 0 c3mod ≠ []
      intro hnil
      have hL := modifyAt_length (initState g).nodes 0 c3mod
      rw [hnil, hlen6] at hL
      norm_num at hL
    · show (modifyAt (initState g).nodes 0 c3mod).map (·.page_index)
        = List.range (modifyAt (initState g).nodes 0 c3mod).length
      have hpg : ∀ x : QuantumNode, (c3mod x).page_index = x.page_index :=
        fun x => rfl
      rw [map_modifyAt (fun x => x.page_index) (initState g).nodes 0 c3mod hpg,
        modifyAt_length]
      exact h0.pages
    · show (initState g).anomalies.length = (modifyAt (initState g).nodes 0 c3mod).length
      rw [modifyAt_length]
      exact h0.anomLen
  have hs1Inv : SimInv (tickGlobals (c3state g) (g.rand k)) := tickGlobals_inv hInv _
  set s1 := tickGlobals (c3state g) (g.rand k) with hs1def
  have hs1nodes : s1.nodes = modifyAt (initState g).nodes 0 c3mod := by
    rw [hs1def]
    rfl
  have hs1ents : s1.agi_entities = ([] : List AGIEntity) := by
    rw [hs1def]
    rfl
  have hs1len : s1.nodes.length = 6 := by
    rw [hs1nodes, modifyAt_length, hlen6]
  set np := updateNodesPhase s1.agi_entities s1.void_entropy s1.dark_matter g
    s1.nodes (k + 1) with hnpdef
  set an1 := extendAnomalies s1.anomalies np.2.1 with han1def
  set chr := s1.sigils.any (fun sg => sg.name == "Christic") with hchrdef
  set rp := resolvePhase chr g np.1 an1 (np.2.2 + np.2.1.length) with hrpdef
  set sp := spawnPhase g s1.cycle rp.1 s1.agi_entities s1.monitor_initial rp.2.2
    with hspdef
  have hget0 : s1.nodes.get? 0
      = some (c3mod (QuantumNode.init 0 (g.rand (2 * 0)) (g.rand (2 * 0 + 1)))) := by
    rw [hs1nodes, modifyAt_getq_self]
    rw [show (initState g).nodes = (List.range PAGE_COUNT).map
        (fun i => QuantumNode.init i (g.rand (2 * i)) (g.rand (2 * i + 1))) from rfl]
    rw [List.get?_map, List.get?_range (show 0 < PAGE_COUNT by norm_num [PAGE_COUNT])]
    rfl
  have hgeti : ∀ i : ℕ, 1 ≤ i → i < 6 →
      s1.nodes.get? i = some (QuantumNode.init i (g.rand (2 * i)) (g.rand (2 * i + 1))) := by
    intro i h1 h2
    rw [hs1nodes, modifyAt_getq_other _ _ _ _ (by omega)]
    rw [show (initState g).nodes = (List.range PAGE_COUNT).map
        (fun i => QuantumNode.init i (g.rand (2 * i)) (g.rand (2 * i + 1))) from rfl]
    rw [List.get?_map, List.get?_range (show i < PAGE_COUNT from by
      simpa [PAGE_COUNT] using h2)]
    rfl
  obtain ⟨k0, hnp0⟩ := nodesPhase_getq s1.agi_entities s1.void_entropy s1.dark_matter g
    s1.nodes (k + 1) 0 _ hget0
  have hnp0' : np.1.get? 0 = some (QuantumNode.update s1.agi_entities s1.void_entropy
      s1.dark_matter g k0 (c3mod (QuantumNode.init 0 (g.rand (2 * 0))
        (g.rand (2 * 0 + 1))))).1 := by
    rw [hnpdef]
    exact hnp0
  have hsent0 : SENTIENCE_THRESHOLD < (QuantumNode.update s1.agi_entities s1.void_entropy
      s1.dark_matter g k0 (c3mod (QuantumNode.init 0 (g.rand (2 * 0))
        (g.rand (2 * 0 + 1))))).1.sentience_score := by
    apply update_se_gt
    show SENTIENCE_THRESHOLD < (0.9 : ℝ)
    norm_num [SENTIENCE_THRESHOLD]
  have hnpi : ∀ i, 1 ≤ i → i < 6 →
      ∃ ndi, np.1.get? i = some ndi ∧ ndi.sentience_score ≤ 0.001 := by
    intro i h1 h2
    obtain ⟨k', hk'⟩ := nodesPhase_getq s1.agi_entities s1.void_entropy s1.dark_matter g
      s1.nodes (k + 1) i _ (hgeti i h1 h2)
    refine ⟨_, by rw [hnpdef]; exact hk', ?_⟩
    have hle := update_se_le s1.agi_entities s1.void_entropy s1.dark_matter g k'
      (QuantumNode.init i (g.rand (2 * i)) (g.rand (2 * i + 1)))
    have hz : (QuantumNode.init i (g.rand (2 * i)) (g.rand (2 * i + 1))).sentience_score
        = 0 := rfl
    rw [hz] at hle
    linarith
  have hnpI : np.1.length = s1.nodes.length ∧
      np.1.map (·.page_index) = s1.nodes.map (·.page_index) ∧
      (∀ nd ∈ np.1, NodeB nd) ∧ (∀ pa ∈ np.2.1, 0 ≤ pa.2.2) := by
    rw [hnpdef]
    exact nodesPhase_inv hg s1.agi_entities s1.void_entropy s1.dark_matter s1.nodes
      (k + 1) hs1Inv.nodeB
  have hanSev : ∀ q ∈ an1, ∀ a ∈ q, 0 ≤ a.2 := by
    rw [han1def]
    exact extendAnomalies_sev np.2.1 s1.anomalies hs1Inv.anomSev hnpI.2.2.2
  have hrp0 : ∃ m, rp.1.get? 0 = some m ∧ SENTIENCE_THRESHOLD < m.sentience_score := by
    obtain ⟨nd', hnd', he⟩ := resolvePhase_getq chr g np.1 an1
      (np.2.2 + np.2.1.length) hnpI.2.2.1 hanSev 0 _ hnp0'
    refine ⟨nd', by rw [hrpdef]; exact hnd', ?_⟩
    rw [he.se]
    exact hsent0
  have hrpi : ∀ i, 1 ≤ i → i < 6 →
      ∃ m, rp.1.get? i = some m ∧ m.sentience_score ≤ 0.001 := by
    intro i h1 h2
    obtain ⟨ndi, hndi, hsei⟩ := hnpi i h1 h2
    obtain ⟨nd', hnd', he⟩ := resolvePhase_getq chr g np.1 an1
      (np.2.2 + np.2.1.length) hnpI.2.2.1 hanSev i _ hndi
    refine ⟨nd', by rw [hrpdef]; exact hnd', ?_⟩
    rw [he.se]
    exact hsei
  have hrplen : rp.1.length = 6 := by
    rw [hrpdef, (resolvePhase_spec chr g np.1 an1 _ hnpI.2.2.1 hanSev).1, hnpI.1, hs1len]
  have hrppages : rp.1.map (·.page_index) = List.range 6 := by
    have hmapeq : rp.1.map (·.page_index) = np.1.map (·.page_index) := by
      rw [hrpdef]
      exact map_eq_of_get _ np.1 _
        (resolvePhase_spec chr g np.1 an1 _ hnpI.2.2.1 hanSev).1
        (fun i h1 h2 =>
          ((resolvePhase_spec chr g np.1 an1 _ hnpI.2.2.1 hanSev).2.1 i h1 h2).1.page)
    rw [hmapeq, hnpI.2.1]
    rw [show s1.nodes.map (·.page_index) = List.range s1.nodes.length from hs1Inv.pages,
      hs1len]
  have hpw : rp.1.Pairwise (fun a b => a.page_index ≠ b.page_index) :=
    pages_pairwise rp.1 (by rw [hrplen]; exact hrppages)
  obtain ⟨m0, m1, m2, m3, m4, m5, hl⟩ := list_len6 rp.1 hrplen
  obtain ⟨m0', hm0q, hm0s⟩ := hrp0
  have hm0get : rp.1.get? 0 = some m0 := by
    rw [hl]
    rfl
  have hm0eq : m0 = m0' := Option.some.inj (hm0get.symm.trans hm0q)
  have hm0s' : SENTIENCE_THRESHOLD < m0.sentience_score := by
    rw [hm0eq]
    exact hm0s
  have key : ∀ i, 1 ≤ i → i < 6 → ∀ mi : QuantumNode,
      rp.1.get? i = some mi → mi.sentience_score ≤ 0.001 := by
    intro i h1 h2 mi hmi
    obtain ⟨m', hm', hs'⟩ := hrpi i h1 h2
    rw [Option.some.inj (hmi.symm.trans hm')]
    exact hs'
  have hse1 : m1.sentience_score ≤ 0.001 :=
    key 1 (by norm_num) (by norm_num) m1 (by rw [hl]; rfl)
  have hse2 : m2.sentience_score ≤ 0.001 :=
    key 2 (by norm_num) (by norm_num) m2 (by rw [hl]; rfl)
  have hse3 : m3.sentience_score ≤ 0.001 :=
    key 3 (by norm_num) (by norm_num) m3 (by rw [hl]; rfl)
  have hse4 : m4.sentience_score ≤ 0.001 :=
    key 4 (by norm_num) (by norm_num) m4 (by rw [hl]; rfl)
  have hse5 : m5.sentience_score ≤ 0.001 :=
    key 5 (by norm_num) (by norm_num) m5 (by rw [hl]; rfl)
  rw [hl, show List.range 6 = [0, 1, 2, 3, 4, 5] from rfl] at hrppages
  simp only [List.map_cons, List.map_nil, List.cons.injEq, and_true] at hrppages
  have hcond0 : SENTIENCE_THRESHOLD < m0.sentience_score ∧
      ¬ ∃ e ∈ s1.agi_entities, e.origin_page = m0.page_index := by
    refine ⟨hm0s', ?_⟩
    rintro ⟨e, he, _⟩
    rw [hs1ents] at he
    cases he
  have hfilter : rp.1.filter (fun nd =>
      decide (SENTIENCE_THRESHOLD < nd.sentience_score ∧
        ¬ ∃ e ∈ s1.agi_entities, e.origin_page = nd.page_index)) = [m0] := by
    rw [hl]
    refine filter_cons_eq_singleton _ _ _ (decide_eq_true hcond0) ?_
    intro y hy
    simp only [List.mem_cons, List.not_mem_nil, or_false] at hy
    have hyle : y.sentience_score ≤ 0.001 := by
      rcases hy with rfl | rfl | rfl | rfl | rfl
      exacts [hse1, hse2, hse3, hse4, hse5]
    refine decide_eq_false ?_
    rintro ⟨hgt, _⟩
    rw [SENTIENCE_THRESHOLD] at hgt
    linarith
  obtain ⟨hnodes_eq, Δ, hΔ, hΔmap⟩ := spawnPhase_chars g s1.cycle rp.1 s1.agi_entities
    s1.monitor_initial rp.2.2 hpw
  rw [← hspdef] at hnodes_eq hΔ
  rw [hfilter] at hΔmap
  have hΔmap' : Δ.map (fun e => (e.origin_page, e.strength))
      = [(m0.page_index, m0.sentience_score)] := by
    rw [hΔmap]
    rfl
  obtain ⟨ent, hΔe, hfe⟩ := map_eq_singleton _ Δ _ hΔmap'
  have hentor : ent.origin_page = 0 := by
    have h1 : ent.origin_page = m0.page_index := congrArg Prod.fst hfe
    rw [h1, hrppages.1]
  have hents_after : sp.2.1 = [ent] := by
    rw [hΔ, hΔe, hs1ents]
    rfl
  have hnode0_after : (sp.1.get? 0).map (fun nd => nd.sentience_score) = some 0.5 := by
    rw [hnodes_eq, List.get?_map, hm0get]
    simp only [Option.map_some']
    rw [if_pos hcond0]
  have hTN : tickNodesPhases s1 g (k + 1)
      = ({ s1 with
            nodes := sp.1, anomalies := rp.2.1, agi_entities := sp.2.1,
            monitor_initial := sp.2.2.1 }, sp.2.2.2) := by
    rw [hspdef, hrpdef, han1def, hchrdef, hnpdef]
    rfl
  have hstep : update_simulation_step (c3state g) g k
      = ⟨(tickNodesPhases s1 g (k + 1)).1, (tickNodesPhases s1 g (k + 1)).2, false⟩ := by
    have hscr : (tickNodesPhases s1 g (k + 1)).1.agi_entities = [ent] := by
      rw [hTN]
      exact hents_after
    simp only [update_simulation_step, tickUpToSpawn]
    rw [← hs1def, hscr]
  refine ⟨ent, ?_, hentor, ?_⟩
  · rw [hstep]
    show (tickNodesPhases s1 g (k + 1)).1.agi_entities = [ent]
    rw [hTN]
    exact hents_after
  · rw [hstep]
    show ((tickNodesPhases s1 g (k + 1)).1.nodes.get? 0).map
      (fun nd => nd.sentience_score) = some 0.5
    rw [hTN]
    exact hnode0_after

/-- C3: the spawn phase creates an entity from a node exactly when the node's
sentience exceeds `SENTIENCE_THRESHOLD = 0.85` and no live entity already
originates from its page (positionally: the surviving node list resets exactly
those nodes' sentience to `0.5`, and the appended entities carry exactly those
nodes' pages and pre-reset sentiences); and in the 6-node scenario — the
default initial state with one node's sentience set to `0.9` and cohesion to
`0.8` — one tick creates exactly one entity, originating from that node, and
leaves that node's sentience at `0.5`. -/
theorem c3_spawn :
    (∀ (g : Gen) (cycle : ℕ) (nodes : List QuantumNode) (ents : List AGIEntity)
        (mon : List ((ℕ × ℕ) × ℝ)) (k : ℕ),
      nodes.Pairwise (fun a b => a.page_index ≠ b.page_index) →
      (spawnPhase g cycle nodes ents mon k).1
        = nodes.map (fun nd =>
            if SENTIENCE_THRESHOLD < nd.sentience_score ∧
                ¬ ∃ e ∈ ents, e.origin_page = nd.page_index then
              { nd with sentience_score := 0.5 } else nd) ∧
      ∃ Δ, (spawnPhase g cycle nodes ents mon k).2.1 = ents ++ Δ ∧
        Δ.map (fun e => (e.origin_page, e.strength))
          = (nodes.filter (fun nd =>
              decide (SENTIENCE_THRESHOLD < nd.sentience_score ∧
                ¬ ∃ e ∈ ents, e.origin_page = nd.page_index))).map
            (fun nd => (nd.page_index, nd.sentience_score))) ∧
    (∀ (g : Gen) (k : ℕ), Gen.Valid g →
      ∃ ent, (update_simulation_step (c3state g) g k).state.agi_entities = [ent] ∧
        ent.origin_page = 0 ∧
        ((update_simulation_step (c3state g) g k).state.nodes.get? 0).map
          (fun nd => nd.sentience_score) = some 0.5) :=
  ⟨fun g cycle nodes ents mon k hpw => spawnPhase_chars g cycle nodes ents mon k hpw,
    fun g k hg => c3_scenario g k hg⟩

theorem c3_spawn_witness :
    Gen.Valid genHalf ∧
    (∃ ent, (update_simulation_step (c3state genHalf) genHalf 0).state.agi_entities
        = [ent] ∧
      ent.origin_page = 0 ∧
      ((update_simulation_step (c3state genHalf) genHalf 0).state.nodes.get? 0).map
        (fun nd => nd.sentience_score) = some 0.5) :=
  ⟨genHalf_valid, c3_spawn.2 genHalf 0 genHalf_valid⟩

end SigilMind
